import Mathlib

/-!
Verification of the SimpleCppJSON value engine (Json.h / Json.cpp / JsonImpl.h /
JsonImpl.cpp) against its specification.

Two embeddings are developed:

* a pure tree-level model of JSON values together with the recursive-descent
  parser (`JsonParser` in Json.cpp) and the serializer
  (`Json::Impl::ToString` / `Printer` in JsonImpl.cpp), used for the
  parse/serialize and handle-level claims;
* a pointer-level heap model of `Json::Impl` boxes and reference-counted
  `COW_Data` records, used for the copy-on-write independence and
  circular-reference claims, plus a model of the thread-local recycling pool
  (`AcquireImpl` / `ReleaseImpl`).

Modelling conventions: C++ `char` values are modelled as natural-number byte
values (comparisons such as `c < 0x20` read the byte unsigned); the
double-precision `Number` payload is modelled exactly as a pair `m, e : Int`
denoting `m * 10 ^ e` (the value of any numeral the parser accepts, with the
rounding of `std::stod` / `std::setprecision(17)` abstracted to the exact
value, which is what precision 17 is chosen to preserve); `std::unordered_map`
is modelled as an association list carrying the map's iteration order:
libstdc++ links a key inserted into an empty bucket at the head of the
element chain, so `operator[]` on a fresh key prepends to the iteration
order, while an overwrite keeps the entry's position; exceptions
are modelled with `Except`; parser line/column bookkeeping, which never
affects acceptance or the produced value, is elided.
-/

namespace CppJson

/-- Byte strings: C++ `std::string` contents as a list of byte values. -/
abbrev Bytes := List Nat

/-- `std::isspace` on the byte values reaching `SkipWhitespace`. -/
def isSpaceB (c : Nat) : Bool :=
  c = 32 || c = 9 || c = 10 || c = 11 || c = 12 || c = 13

/-- `std::isdigit`. -/
def isDigit (c : Nat) : Bool := 48 ≤ c && c ≤ 57

/-- `std::isxdigit`. -/
def isHexDigit (c : Nat) : Bool :=
  (48 ≤ c && c ≤ 57) || (97 ≤ c && c ≤ 102) || (65 ≤ c && c ≤ 70)

/-- Value of one hexadecimal digit character (as read by `std::stoul(_,_,16)`). -/
def hexDigitVal (c : Nat) : Nat :=
  if 48 ≤ c && c ≤ 57 then c - 48
  else if 97 ≤ c && c ≤ 102 then c - 87
  else c - 55

/-- Lower-case hexadecimal digit character, as produced by `std::hex` output. -/
def hexDigitChar (d : Nat) : Nat := if d < 10 then d + 48 else d + 87

/-- The tagged union stored in `Json::Impl::COW_Data::value_`
(`std::variant<std::nullptr_t, bool, Number, std::string, Array, Object>`).
The `Number` payload (a C++ `double`) is modelled exactly as `m * 10 ^ e`;
`Object` is modelled as an association list in the `std::unordered_map`'s
iteration order. -/
inductive JVal where
  | null : JVal
  | boolean : Bool → JVal
  | number : Int → Int → JVal
  | string : Bytes → JVal
  | array : List JVal → JVal
  | object : List (Bytes × JVal) → JVal

/-- `Json::Type` (Json.h): the six kinds, in variant-index order. -/
inductive JType where
  | Null | Boolean | Number | String | Array | Object
deriving DecidableEq

/-- `Json::Impl::GetType`: the variant index of the stored value. -/
def typeOf : JVal → JType
  | .null => .Null
  | .boolean _ => .Boolean
  | .number _ _ => .Number
  | .string _ => .String
  | .array _ => .Array
  | .object _ => .Object

/-! ### Number rendering (`Printer::PrintValue(Number)`)

`ss_ << std::setprecision(17) << value` prints the decimal value of the
double.  Every representable value is `m * 10 ^ e` exactly; the renderer
below produces its canonical decimal numeral. -/

/-- Least-significant-first decimal digits, with structural fuel (`n` itself
is always enough fuel). -/
def digitsAuxF : Nat → Nat → List Nat
  | 0, _ => []
  | fuel + 1, n => if n = 0 then [] else n % 10 :: digitsAuxF fuel (n / 10)

/-- Least-significant-first decimal digits of `n` (empty for 0). -/
def digitsLSB (n : Nat) : List Nat := digitsAuxF n n

/-- Strip factors of 10: returns `(n', k)` with `n = n' * 10 ^ k` and
`¬ 10 ∣ n'` (for `n ≠ 0`). -/
def stripTens (n : Nat) : Nat × Nat :=
  (Nat.ofDigits 10 ((digitsLSB n).dropWhile (fun d => d = 0)),
   ((digitsLSB n).takeWhile (fun d => d = 0)).length)

/-- Canonical form of a decimal pair: zero is `(0, 0)`, otherwise trailing
zeros of the mantissa are moved into the exponent. -/
def canonNum (m e : Int) : Int × Int :=
  if m = 0 then (0, 0)
  else
    let p := stripTens m.natAbs
    (if m < 0 then -(p.1 : Int) else (p.1 : Int), e + (p.2 : Int))

/-- Decimal digit characters of `n`, most significant first (empty for 0). -/
def digitsOf (n : Nat) : Bytes :=
  ((digitsLSB n).reverse).map (fun d => d + 48)

/-- The numeral printed for a canonical decimal pair: plain digits with
trailing zeros for a non-negative exponent, a decimal point (with leading
`0.` and padding zeros as needed) for a negative one. -/
def renderCanon (c : Int × Int) : Bytes :=
  if c.1 = 0 then [48]
  else
    let sign : Bytes := if c.1 < 0 then [45] else []
    let ds := digitsOf c.1.natAbs
    if 0 ≤ c.2 then
      sign ++ ds ++ List.replicate c.2.toNat 48
    else
      let k := (-c.2).toNat
      if k < ds.length then
        sign ++ ds.take (ds.length - k) ++ [46] ++ ds.drop (ds.length - k)
      else
        sign ++ [48, 46] ++ List.replicate (k - ds.length) 48 ++ ds

/-- The decimal numeral printed for the number `m * 10 ^ e`. -/
def renderNum (m e : Int) : Bytes := renderCanon (canonNum m e)

/-! ### String rendering (`Printer::PrintValue(const std::string&)`) -/

/-- Output bytes for one string byte: the switch in
`Printer::PrintValue(const std::string&)` — the seven named escapes, then
`\u00XX` for remaining control bytes, else the byte itself. -/
def escapeByte (c : Nat) : Bytes :=
  if c = 34 then [92, 34]
  else if c = 92 then [92, 92]
  else if c = 8 then [92, 98]
  else if c = 12 then [92, 102]
  else if c = 10 then [92, 110]
  else if c = 13 then [92, 114]
  else if c = 9 then [92, 116]
  else if c < 32 then [92, 117, 48, 48, hexDigitChar (c / 16), hexDigitChar (c % 16)]
  else [c]

/-- A JSON string literal: quote, escaped bytes, quote. -/
def renderString (s : Bytes) : Bytes :=
  [34] ++ (s.map escapeByte).flatten ++ [34]

/-- `Printer::PrintNewline`: a newline in pretty mode only. -/
def nlB (p : Bool) : Bytes := if p then [10] else []

/-- `Printer::PrintIndent`: `indent_ * 2` spaces in pretty mode only. -/
def indentB (p : Bool) (ind : Nat) : Bytes :=
  if p then List.replicate (ind * 2) 32 else []

/-- The key/value separator: `": "` pretty, `":"` compact. -/
def colonB (p : Bool) : Bytes := if p then [58, 32] else [58]

mutual

/-- `Printer::PrintValue` on each variant alternative.  On the acyclic trees
of this model `PrintWithCircularCheck` never fires, so the recursion is the
plain structural one; the identity-based circular check is modelled at the
heap level (`Impl.printWithCheck`). -/
def renderV (p : Bool) (ind : Nat) : JVal → Bytes
  | .null => [110, 117, 108, 108]
  | .boolean b => if b then [116, 114, 117, 101] else [102, 97, 108, 115, 101]
  | .number m e => renderNum m e
  | .string s => renderString s
  | .array xs =>
      [91] ++ (if xs.isEmpty then [] else
        nlB p ++ renderItems p (ind + 1) xs ++ indentB p ind) ++ [93]
  | .object kvs =>
      [123] ++ (if kvs.isEmpty then [] else
        nlB p ++ renderEntries p (ind + 1) kvs ++ indentB p ind) ++ [125]

/-- The element loop of `Printer::PrintValue(const Array&)`: indent, element,
comma unless last, newline. -/
def renderItems (p : Bool) (ind : Nat) : List JVal → Bytes
  | [] => []
  | [x] => indentB p ind ++ renderV p ind x ++ nlB p
  | x :: y :: t =>
      indentB p ind ++ renderV p ind x ++ [44] ++ nlB p ++
        renderItems p ind (y :: t)

/-- The entry loop of `Printer::PrintValue(const Object&)`: indent, key
string, colon, value, comma unless last, newline. -/
def renderEntries (p : Bool) (ind : Nat) : List (Bytes × JVal) → Bytes
  | [] => []
  | [kv] => indentB p ind ++ renderString kv.1 ++ colonB p ++ renderV p ind kv.2 ++ nlB p
  | kv :: e :: t =>
      indentB p ind ++ renderString kv.1 ++ colonB p ++ renderV p ind kv.2 ++ [44] ++ nlB p ++
        renderEntries p ind (e :: t)

end

namespace Json

/-- `Json::Impl::ToString(bool pretty)` on an acyclic value. -/
def ToStr (v : JVal) (pretty : Bool) : Bytes := renderV pretty 0 v

end Json

/-! ### The parser (`class JsonParser`, Json.cpp) -/

/-- The distinct `JsonParseError` messages thrown by `JsonParser`, plus the
fuel marker of the model (the C++ recursion is bounded only by the call
stack). -/
inductive PErr where
  | unexpectedEnd
  | extraContent
  | unexpectedChar
  | invalidNullLit
  | invalidBoolLit
  | unterminatedEscape
  | incompleteUnicode
  | invalidUnicode
  | invalidEscape
  | invalidStringChar
  | unterminatedString
  | invalidNumber
  | expectedCommaOrBracket
  | expectedStringKey
  | expectedColon
  | expectedCommaOrBrace
  | outOfFuel
deriving DecidableEq

/-- `SkipWhitespace`. -/
def skipWs (s : Bytes) : Bytes := s.dropWhile isSpaceB

/-- `ParseNull`: the input at the current position must start with `null`. -/
def parseNullLit (s : Bytes) : Except PErr (JVal × Bytes) :=
  match s with
  | a :: b :: c :: d :: rest =>
      if a = 110 && b = 117 && c = 108 && d = 108 then .ok (.null, rest)
      else .error .invalidNullLit
  | _ => .error .invalidNullLit

/-- `ParseBoolean`: the input must start with `true` or `false`. -/
def parseBoolLit (s : Bytes) : Except PErr (JVal × Bytes) :=
  match s with
  | a :: b :: c :: d :: rest =>
      if a = 116 && b = 114 && c = 117 && d = 101 then .ok (.boolean true, rest)
      else match rest with
        | e :: rest2 =>
            if a = 102 && b = 97 && c = 108 && d = 115 && e = 101 then
              .ok (.boolean false, rest2)
            else .error .invalidBoolLit
        | [] => .error .invalidBoolLit
  | _ => .error .invalidBoolLit

/-- The string-scanning loop of `ParseString`, entered just after the opening
quote; returns the decoded bytes and the input after the closing quote. -/
def parseStringBody (s : Bytes) : Except PErr (Bytes × Bytes) :=
  match s with
  | [] => .error .unterminatedString
  | c :: rest =>
    if c = 34 then .ok ([], rest)
    else if c = 92 then
      match rest with
      | [] => .error .unterminatedEscape
      | e :: rest2 =>
        if e = 34 then (parseStringBody rest2).map (fun r => (34 :: r.1, r.2))
        else if e = 92 then (parseStringBody rest2).map (fun r => (92 :: r.1, r.2))
        else if e = 47 then (parseStringBody rest2).map (fun r => (47 :: r.1, r.2))
        else if e = 98 then (parseStringBody rest2).map (fun r => (8 :: r.1, r.2))
        else if e = 102 then (parseStringBody rest2).map (fun r => (12 :: r.1, r.2))
        else if e = 110 then (parseStringBody rest2).map (fun r => (10 :: r.1, r.2))
        else if e = 114 then (parseStringBody rest2).map (fun r => (13 :: r.1, r.2))
        else if e = 116 then (parseStringBody rest2).map (fun r => (9 :: r.1, r.2))
        else if e = 117 then
          match rest2 with
          | [] => .error .incompleteUnicode
          | h1 :: r1 =>
            match r1 with
            | [] => .error .incompleteUnicode
            | h2 :: r2 =>
              match r2 with
              | [] => .error .incompleteUnicode
              | h3 :: r3 =>
                match r3 with
                | [] => .error .incompleteUnicode
                | h4 :: rest3 =>
                  if isHexDigit h1 && isHexDigit h2 && isHexDigit h3 && isHexDigit h4 then
                    let cp := ((hexDigitVal h1 * 16 + hexDigitVal h2) * 16
                                + hexDigitVal h3) * 16 + hexDigitVal h4
                    (parseStringBody rest3).map
                      (fun r => ((if cp ≤ 127 then cp else 63) :: r.1, r.2))
                  else .error .invalidUnicode
        else .error .invalidEscape
    else if c < 32 then .error .invalidStringChar
    else (parseStringBody rest).map (fun r => (c :: r.1, r.2))

/-- Character-digit list to value, as accumulated left to right. -/
def digitsVal (ds : Bytes) : Nat :=
  ds.foldl (fun a c => a * 10 + (c - 48)) 0

/-- Assemble the exact value of a numeral from its pieces (the model of
`std::stod` on the grammar-checked token). -/
def mkNumber (neg : Bool) (intDs fracDs : Bytes) (esign : Int) (expDs : Bytes) : JVal :=
  let m0 : Int := (digitsVal (intDs ++ fracDs) : Int)
  .number (if neg then -m0 else m0) (esign * (digitsVal expDs : Int) - (fracDs.length : Int))

/-- The exponent tail of `ParseNumber` (from the optional `e`/`E` on). -/
def parseExpPart (neg : Bool) (intDs fracDs : Bytes) (s : Bytes) :
    Except PErr (JVal × Bytes) :=
  match s with
  | e :: s5 =>
    if e = 101 || e = 69 then
      let sp : Int × Bytes :=
        match s5 with
        | c :: t => if c = 43 then (1, t) else if c = 45 then (-1, t) else (1, c :: t)
        | [] => (1, [])
      match sp.2 with
      | d :: _ =>
          if isDigit d then
            .ok (mkNumber neg intDs fracDs sp.1 (sp.2.takeWhile isDigit),
                 sp.2.dropWhile isDigit)
          else .error .invalidNumber
      | [] => .error .invalidNumber
    else .ok (mkNumber neg intDs fracDs 1 [], s)
  | [] => .ok (mkNumber neg intDs fracDs 1 [], s)

/-- The fraction-then-exponent tail of `ParseNumber` (after the integer
part). -/
def parseFracPart (neg : Bool) (intDs : Bytes) (s : Bytes) :
    Except PErr (JVal × Bytes) :=
  match s with
  | c :: s3 =>
    if c = 46 then
      match s3 with
      | d :: _ =>
          if isDigit d then
            parseExpPart neg intDs (s3.takeWhile isDigit) (s3.dropWhile isDigit)
          else .error .invalidNumber
      | [] => .error .invalidNumber
    else parseExpPart neg intDs [] s
  | [] => parseExpPart neg intDs [] s

/-- The integer part of `ParseNumber` after the optional sign: a digit is
required; no leading zero except exactly `0` (consumed alone), any other
leading digit starts a maximal digit run; then fraction and exponent. -/
def parseNumTail (neg : Bool) (s1 : Bytes) : Except PErr (JVal × Bytes) :=
  match s1 with
  | [] => .error .invalidNumber
  | c :: t =>
    if isDigit c then
      if c = 48 then parseFracPart neg [48] t
      else parseFracPart neg ((c :: t).takeWhile isDigit) ((c :: t).dropWhile isDigit)
    else .error .invalidNumber

/-- `ParseNumber`: strict grammar — optional `-`, then the integer part and
tails. -/
def parseNumber (s : Bytes) : Except PErr (JVal × Bytes) :=
  match s with
  | c :: t => if c = 45 then parseNumTail true t else parseNumTail false (c :: t)
  | [] => parseNumTail false []

/-- `std::unordered_map::operator[]` followed by assignment, at the
association-list grain (the list is the map's iteration order): if the key
is present its value is overwritten in place and its position is unchanged;
a fresh key goes into an empty bucket, which libstdc++
(`_M_insert_bucket_begin`) links at the head of the element chain, so the
new entry is prepended to the iteration order. -/
def objInsert (kvs : List (Bytes × JVal)) (k : Bytes) (v : JVal) :
    List (Bytes × JVal) :=
  if kvs.any (fun kv => kv.1 == k) then
    kvs.map (fun kv => if kv.1 = k then (k, v) else kv)
  else (k, v) :: kvs

mutual

/-- `ParseValue`: skip whitespace, dispatch on the first character.  The
`Nat` argument is fuel for the model's recursion; the C++ recursion is
bounded only by the stack. -/
def parseValue : Nat → Bytes → Except PErr (JVal × Bytes)
  | 0, _ => .error .outOfFuel
  | fuel + 1, s =>
    let s := skipWs s
    match s with
    | [] => .error .unexpectedEnd
    | c :: t =>
      if c = 110 then parseNullLit (c :: t)
      else if c = 116 || c = 102 then parseBoolLit (c :: t)
      else if c = 34 then
        (parseStringBody t).map (fun r => (JVal.string r.1, r.2))
      else if c = 91 then
        match skipWs t with
        | d :: rest =>
            if d = 93 then .ok (.array [], rest)
            else parseArrayItems fuel (d :: rest) []
        | [] => parseArrayItems fuel [] []
      else if c = 123 then
        match skipWs t with
        | d :: rest =>
            if d = 125 then .ok (.object [], rest)
            else parseObjectItems fuel (d :: rest) []
        | [] => parseObjectItems fuel [] []
      else if c = 45 || isDigit c then parseNumber (c :: t)
      else .error .unexpectedChar

/-- The element loop of `ParseArray`: element, then `]` to finish or `,` and
whitespace to continue. -/
def parseArrayItems : Nat → Bytes → List JVal → Except PErr (JVal × Bytes)
  | 0, _, _ => .error .outOfFuel
  | fuel + 1, s, acc =>
    match parseValue fuel s with
    | .error e => .error e
    | .ok (v, s1) =>
      match skipWs s1 with
      | c :: rest =>
          if c = 93 then .ok (.array (acc ++ [v]), rest)
          else if c = 44 then parseArrayItems fuel (skipWs rest) (acc ++ [v])
          else .error .expectedCommaOrBracket
      | [] => .error .expectedCommaOrBracket

/-- The member loop of `ParseObject`: whitespace, quoted key, `:`, value
(inserted with last-write-wins), then `}` or `,`. -/
def parseObjectItems : Nat → Bytes → List (Bytes × JVal) →
    Except PErr (JVal × Bytes)
  | 0, _, _ => .error .outOfFuel
  | fuel + 1, s, acc =>
    match skipWs s with
    | c :: t =>
      if c = 34 then
        match parseStringBody t with
        | .error e => .error e
        | .ok (key, s1) =>
          match skipWs s1 with
          | d :: s3 =>
            if d = 58 then
              match parseValue fuel s3 with
              | .error e => .error e
              | .ok (v, s4) =>
                let acc2 := objInsert acc key v
                match skipWs s4 with
                | b :: rest =>
                    if b = 125 then .ok (.object acc2, rest)
                    else if b = 44 then parseObjectItems fuel rest acc2
                    else .error .expectedCommaOrBrace
                | [] => .error .expectedCommaOrBrace
            else .error .expectedColon
          | [] => .error .expectedColon
      else .error .expectedStringKey
    | [] => .error .expectedStringKey

end

namespace Json

/-- `Json::Parse` via `JsonParser::Parse`: skip whitespace, fail on empty
input, parse one value, fail on trailing non-whitespace.  The model's fuel
`2 * length + 2` covers any input the grammar accepts. -/
def Parse (s : Bytes) : Except PErr JVal :=
  if (skipWs s).isEmpty then .error .unexpectedEnd
  else
    match parseValue (2 * s.length + 2) (skipWs s) with
    | .error e => .error e
    | .ok (v, rest) =>
        if (skipWs rest).isEmpty then .ok v else .error .extraContent

end Json

/-! ### Validity: what the C++ data structure guarantees

`Object` is an `std::unordered_map`, so object keys are unique at every
level; the model states this as a recursive boolean predicate. -/

/-- The code point denoted by the four hex digits of a `\uXXXX` escape
(the value `std::stoul(hexStr, nullptr, 16)` computes). -/
def escapeCodePoint (h1 h2 h3 h4 : Nat) : Nat :=
  ((hexDigitVal h1 * 16 + hexDigitVal h2) * 16 + hexDigitVal h3) * 16 + hexDigitVal h4

/-- No duplicate among a list of keys. -/
def keysFresh : List Bytes → Bool
  | [] => true
  | k :: t => (!t.contains k) && keysFresh t

mutual

/-- A value expressible by the C++ data structure: object keys are unique at
every nesting level. -/
def validB : JVal → Bool
  | .null => true
  | .boolean _ => true
  | .number _ _ => true
  | .string _ => true
  | .array xs => validList xs
  | .object kvs => keysFresh (kvs.map Prod.fst) && validEntries kvs

/-- Validity of all elements of an array. -/
def validList : List JVal → Bool
  | [] => true
  | x :: t => validB x && validList t

/-- Validity of all values of an object. -/
def validEntries : List (Bytes × JVal) → Bool
  | [] => true
  | kv :: t => validB kv.2 && validEntries t

end

mutual

/-- The value as the parser rebuilds it: every array keeps its order
(`std::vector::push_back`), but every object is a freshly filled
`std::unordered_map`, whose chain-head linking of each new key makes the
rebuilt iteration order the reverse of the serialized entry order. -/
def reVal : JVal → JVal
  | .null => .null
  | .boolean b => .boolean b
  | .number m e => .number m e
  | .string s => .string s
  | .array xs => .array (reList xs)
  | .object kvs => .object (reEntries kvs).reverse

/-- `reVal` on every element of an array. -/
def reList : List JVal → List JVal
  | [] => []
  | x :: t => reVal x :: reList t

/-- `reVal` on every value of an object. -/
def reEntries : List (Bytes × JVal) → List (Bytes × JVal)
  | [] => []
  | kv :: t => (kv.1, reVal kv.2) :: reEntries t

end

mutual

/-- Every object anywhere in the value has at most one entry, so no
iteration-order question arises. -/
def singleKeyed : JVal → Bool
  | .null => true
  | .boolean _ => true
  | .number _ _ => true
  | .string _ => true
  | .array xs => skList xs
  | .object kvs => decide (kvs.length ≤ 1) && skEntries kvs

/-- `singleKeyed` on every element of an array. -/
def skList : List JVal → Bool
  | [] => true
  | x :: t => singleKeyed x && skList t

/-- `singleKeyed` on every value of an object. -/
def skEntries : List (Bytes × JVal) → Bool
  | [] => true
  | kv :: t => singleKeyed kv.2 && skEntries t

end

/-! ### The public handle (`class Json`) at the value grain

A `Json` object owns `impl_ : std::unique_ptr<Impl>`; after a move the
pointer is null.  A handle is therefore `Option JVal`: `none` is the
moved-from state, `some v` a live value.  Exceptions become `Except JErr`. -/

/-- The exception taxonomy seen by `Json`'s methods: `JsonException`
(generic), `JsonTypeError`, `JsonParseError` (all derived from
`JsonException`), and `std::out_of_range` escaping from
`std::unordered_map::at`, which is *not* a `JsonException`. -/
inductive JErr where
  | generic
  | typeErr (expected actual : JType)
  | parseErr (e : PErr)
  | outOfRange
deriving DecidableEq

/-- Whether an error is a `JsonException` (caught by
`catch (const JsonException&)`). -/
def isJsonExc : JErr → Bool
  | .outOfRange => false
  | _ => true

/-- The state of one `Json` object: `none` models a moved-from handle
(`impl_ == nullptr`). -/
abbrev Handle := Option JVal

namespace Json

/-- `Json::Json(Json&&)` / move assignment (both defaulted): the target takes
the `impl_`, the source is left with a null pointer. -/
def moveFrom (h : Handle) : Handle × Handle := (h, none)

/-- `Json::ensure_valid`: throw the generic exception on a null `impl_`. -/
def ensure_valid (h : Handle) : Except JErr Unit :=
  match h with
  | none => .error .generic
  | some _ => .ok ()

/-- `Json::GetType`: `Type::Null` for moved-from objects, else the stored
tag. -/
def GetType (h : Handle) : JType :=
  match h with
  | none => .Null
  | some v => typeOf v

/-- `Json::IsNull`: false for moved-from objects. -/
def IsNull (h : Handle) : Bool :=
  match h with
  | none => false
  | some v => typeOf v == .Null

/-- `Json::IsBoolean`. -/
def IsBoolean (h : Handle) : Bool :=
  match h with
  | none => false
  | some v => typeOf v == .Boolean

/-- `Json::IsNumber`. -/
def IsNumber (h : Handle) : Bool :=
  match h with
  | none => false
  | some v => typeOf v == .Number

/-- `Json::IsString`. -/
def IsString (h : Handle) : Bool :=
  match h with
  | none => false
  | some v => typeOf v == .String

/-- `Json::IsArray`. -/
def IsArray (h : Handle) : Bool :=
  match h with
  | none => false
  | some v => typeOf v == .Array

/-- `Json::IsObject`. -/
def IsObject (h : Handle) : Bool :=
  match h with
  | none => false
  | some v => typeOf v == .Object

/-- The four categories of the `Get`/`Set`/`TryGet` template constraint:
`bool`, integral, floating point, string-like. -/
inductive CType where
  | cBool | cIntegral | cFloating | cString
deriving DecidableEq

/-- A value returned by `Get<T>`, per category. -/
inductive CVal where
  | vB (b : Bool)
  | vI (i : Int)
  | vF (m e : Int)
  | vS (s : Bytes)
deriving DecidableEq

/-- `static_cast<IntegralT>(double)`: truncation toward zero. -/
def numTrunc (m e : Int) : Int :=
  if 0 ≤ e then m * 10 ^ e.toNat else m / (10 : Int) ^ (-e).toNat

/-- `Json::Get<T>`: `ensure_valid`, then tag check (throwing `JsonTypeError`
on mismatch), then the stored payload (cast for numeric `T`). -/
def Get (t : CType) (h : Handle) : Except JErr CVal :=
  match h with
  | none => .error .generic
  | some v =>
    match t with
    | .cBool =>
      match v with
      | .boolean b => .ok (.vB b)
      | _ => .error (.typeErr .Boolean (typeOf v))
    | .cIntegral =>
      match v with
      | .number m e => .ok (.vI (numTrunc m e))
      | _ => .error (.typeErr .Number (typeOf v))
    | .cFloating =>
      match v with
      | .number m e => .ok (.vF m e)
      | _ => .error (.typeErr .Number (typeOf v))
    | .cString =>
      match v with
      | .string s => .ok (.vS s)
      | _ => .error (.typeErr .String (typeOf v))

/-- `Json::Set<T>`: `ensure_valid`, then replace the stored payload. -/
def Set (h : Handle) (x : CVal) : Except JErr Handle :=
  match h with
  | none => .error .generic
  | some _ =>
    match x with
    | .vB b => .ok (some (.boolean b))
    | .vI i => .ok (some (.number i 0))
    | .vF m e => .ok (some (.number m e))
    | .vS s => .ok (some (.string s))

/-- `Json::TryGet<T>`: null `impl_` gives an empty result; otherwise
`Get<T>` with `JsonTypeError` and `JsonException` caught to an empty result;
anything else would propagate. -/
def TryGet (t : CType) (h : Handle) : Except JErr (Option CVal) :=
  match h with
  | none => .ok none
  | some _ =>
    match Get t h with
    | .ok cv => .ok (some cv)
    | .error e => if isJsonExc e then .ok none else .error e

/-- The tag test performed inside `Get<T>` for each category. -/
def tagMatches (t : CType) (v : JVal) : Bool :=
  match t with
  | .cBool => typeOf v == .Boolean
  | .cIntegral => typeOf v == .Number
  | .cFloating => typeOf v == .Number
  | .cString => typeOf v == .String

/-- The stored value at type `T`, when the tag matches (the claim-side
description of what `TryGet` should return). -/
def convertTo (t : CType) (v : JVal) : Option CVal :=
  match t, v with
  | .cBool, .boolean b => some (.vB b)
  | .cIntegral, .number m e => some (.vI (numTrunc m e))
  | .cFloating, .number m e => some (.vF m e)
  | .cString, .string s => some (.vS s)
  | _, _ => none

/-- `Json::Impl::Size` (noexcept): array length, object size, else 0. -/
def implSize : JVal → Nat
  | .array xs => xs.length
  | .object kvs => kvs.length
  | _ => 0

/-- `Json::Size`: `ensure_valid`, generic exception unless array or object,
else `Impl::Size`. -/
def Size (h : Handle) : Except JErr Nat :=
  match h with
  | none => .error .generic
  | some v =>
    if (typeOf v == .Array) || (typeOf v == .Object) then .ok (implSize v)
    else .error .generic

/-- `Json::operator[](size_t)` via `Impl::At(size_t)`: generic exception on
non-arrays (`GetArray()` check) and out-of-bounds indices. -/
def atIdx (h : Handle) (i : Nat) : Except JErr JVal :=
  match h with
  | none => .error .generic
  | some v =>
    match v with
    | .array xs =>
      match xs[i]? with
      | some x => .ok x
      | none => .error .generic
    | _ => .error .generic

/-- Association-list lookup (the key → value mapping of the
`std::unordered_map`). -/
def lookupKey (kvs : List (Bytes × JVal)) (k : Bytes) : Option JVal :=
  match kvs with
  | [] => none
  | kv :: t => if kv.1 = k then some kv.2 else lookupKey t k

/-- `const Json::operator[](string_view)` via `Impl::At(key)`: generic
exception on non-objects; a missing key makes `unordered_map::at` throw
`std::out_of_range`. -/
def atKeyConst (h : Handle) (k : Bytes) : Except JErr JVal :=
  match h with
  | none => .error .generic
  | some v =>
    match v with
    | .object kvs =>
      match lookupKey kvs k with
      | some x => .ok x
      | none => .error .outOfRange
    | _ => .error .generic

/-- Non-const `Json::operator[](string_view)` via `Impl::operator[]`:
generic exception on non-objects; creates a Null member when the key is
absent.  The result is the handle after the access. -/
def objIndexIns (h : Handle) (k : Bytes) : Except JErr Handle :=
  match h with
  | none => .error .generic
  | some v =>
    match v with
    | .object kvs =>
      match lookupKey kvs k with
      | some _ => .ok (some (.object kvs))
      | none => .ok (some (.object (kvs ++ [(k, .null)])))
    | _ => .error .generic

/-- `Json::PushBack` via `Impl::PushBack`: generic exception on non-arrays,
else append. -/
def PushBack (h : Handle) (x : JVal) : Except JErr Handle :=
  match h with
  | none => .error .generic
  | some v =>
    match v with
    | .array xs => .ok (some (.array (xs ++ [x])))
    | _ => .error .generic

/-- `Json::PopBack` via `Impl::PopBack`: generic exception on non-arrays and
on an empty array. -/
def PopBack (h : Handle) : Except JErr Handle :=
  match h with
  | none => .error .generic
  | some v =>
    match v with
    | .array xs =>
      if xs.isEmpty then .error .generic else .ok (some (.array xs.dropLast))
    | _ => .error .generic

/-- `Json::Contains`: `ensure_valid`, generic exception on non-objects, else
the map lookup. -/
def Contains (h : Handle) (k : Bytes) : Except JErr Bool :=
  match h with
  | none => .error .generic
  | some v =>
    match v with
    | .object kvs => .ok (lookupKey kvs k).isSome
    | _ => .error .generic

/-- `Json::Remove` via `Impl::Remove`: generic exception on non-objects
(`GetObject()` check), else erase the key. -/
def Remove (h : Handle) (k : Bytes) : Except JErr Handle :=
  match h with
  | none => .error .generic
  | some v =>
    match v with
    | .object kvs => .ok (some (.object (kvs.filter (fun kv => !(kv.1 = k : Bool)))))
    | _ => .error .generic

/-- `Json::Keys` via `Impl::Keys`: generic exception on non-objects
(`GetObject()` check), else the key list. -/
def Keys (h : Handle) : Except JErr (List Bytes) :=
  match h with
  | none => .error .generic
  | some v =>
    match v with
    | .object kvs => .ok (kvs.map Prod.fst)
    | _ => .error .generic

/-- `Json::ToString` on a handle: `ensure_valid`, then the serializer. -/
def ToStringH (h : Handle) (pretty : Bool) : Except JErr Bytes :=
  match h with
  | none => .error .generic
  | some v => .ok (ToStr v pretty)

/-- The observable content of `Json::Iterator` for comparisons between
iterators of one and the same `Json`: whether `impl_` is null, and the
index.  (`operator==` compares the `impl_` pointer and the index; for
iterators obtained from the same handle the pointers agree exactly when both
are non-null.) -/
structure Iter where
  hasImpl : Bool
  index : Nat
deriving DecidableEq

/-- `Json::begin` (array iteration): null pointer for moved-from handles,
else index 0. -/
def beginIter (h : Handle) : Iter :=
  match h with
  | none => ⟨false, 0⟩
  | some _ => ⟨true, 0⟩

/-- `Json::end` (array iteration): null pointer for moved-from handles;
index 0 when neither array nor object; else index `Size()`. -/
def endIter (h : Handle) : Iter :=
  match h with
  | none => ⟨false, 0⟩
  | some v =>
    if (typeOf v == .Array) || (typeOf v == .Object) then ⟨true, implSize v⟩
    else ⟨true, 0⟩

end Json

/-! ### The recycling pool (`Json::Impl::AcquireImpl` / `ReleaseImpl`)

The thread-local `object_pool_` holds `std::unique_ptr<Impl>` slots; a slot
is modelled by the data value its `Impl` currently carries (`none` for an
empty `unique_ptr`).  `pool_index_` counts the slots available for
acquisition. -/

namespace Impl

/-- The thread-local pool state. -/
structure Pool where
  object_pool_ : List (Option JVal)
  pool_index_ : Nat

/-- First-use warm-up of `AcquireImpl`: pre-populate 50 Null impls. -/
def warmup (p : Pool) : Pool :=
  if p.object_pool_.isEmpty && p.pool_index_ = 0 then
    Pool.mk (List.replicate 50 (some JVal.null)) 50
  else p

/-- `Json::Impl::AcquireImpl`: warm the pool on first use; take the top slot
and reset its data to a fresh Null `COW_Data` (the reset happens *here*, not
on release); fall back to a fresh Null impl when the pool is empty.  Returns
the acquired impl's value and the new pool. -/
def AcquireImpl (p : Pool) : JVal × Pool :=
  let q := warmup p
  if q.pool_index_ > 0 then
    (JVal.null, Pool.mk (q.object_pool_.set (q.pool_index_ - 1) none) (q.pool_index_ - 1))
  else
    (JVal.null, q)

/-- `Json::Impl::ReleaseImpl`: if the pool is below `MAX_POOL_SIZE = 1000`,
grow the vector if needed and store the impl — *still carrying its current
data* — at `pool_index_`; beyond capacity the impl is destroyed. -/
def ReleaseImpl (p : Pool) (v : JVal) : Pool :=
  if p.pool_index_ < 1000 then
    let arr := if p.object_pool_.length ≤ p.pool_index_ then
                 p.object_pool_ ++
                   List.replicate (p.pool_index_ + 1 - p.object_pool_.length) none
               else p.object_pool_
    Pool.mk (arr.set p.pool_index_ (some v)) (p.pool_index_ + 1)
  else p

/-! ### The pointer-level heap model

Each `Json` owns an `Impl` box (`std::unique_ptr<Impl>`); each `Impl` holds
`data_ : std::shared_ptr<COW_Data>`; a `COW_Data` holds the variant, whose
`Array`/`Object` alternatives contain nested `Json` objects, i.e. further
`Impl` boxes.  The heap is therefore two-level: `impls` maps an impl id to
the data id its `data_` points at (`none` = dead/moved box), `datas` maps a
data id to a record `(rc, node)` where `rc` is the `shared_ptr` use count
and the node's children are impl ids.  Records are never deallocated in the
model (a zero `rc` marks garbage); `rc` may overcount actual references
because a destroyed `Json`'s impl is parked in the recycling pool *still
holding its `data_`* (see `ReleaseImpl`), which only ever makes `EnsureUnique`
clone more eagerly, never less. -/

/-- An impl id: the identity of one `Impl` box. -/
abbrev ImplId := Nat

/-- A data id: the identity of one `COW_Data` record. -/
abbrev DataId := Nat

/-- The variant of `COW_Data::value_`, children as impl ids. -/
inductive HNode where
  | hNull
  | hBool (b : Bool)
  | hNum (m e : Int)
  | hStr (s : Bytes)
  | hArr (elems : List ImplId)
  | hObj (entries : List (Bytes × ImplId))
deriving DecidableEq

/-- One `COW_Data`: use count plus variant. -/
structure HRec where
  rc : Nat
  val : HNode
deriving DecidableEq

/-- The heap. -/
structure Store where
  impls : List (Option DataId)
  datas : List HRec
deriving DecidableEq

/-- The impl ids referenced by a node (the nested `Json` objects of the
`Array`/`Object` alternatives). -/
def childIds : HNode → List ImplId
  | .hArr es => es
  | .hObj kvs => kvs.map Prod.snd
  | _ => []

/-- The data id an impl's `data_` points at. -/
def implData (s : Store) (i : ImplId) : Option DataId :=
  (s.impls[i]?).bind id

/-- The variant stored in a record. -/
def dataVal (s : Store) (d : DataId) : Option HNode :=
  (s.datas[d]?).map HRec.val

/-- The use count of a record (0 when absent). -/
def rcOf (s : Store) (d : DataId) : Nat :=
  ((s.datas[d]?).map HRec.rc).getD 0

/-- Point an impl box at a data record (or at nothing). -/
def setImpl (s : Store) (i : ImplId) (d : Option DataId) : Store :=
  Store.mk (s.impls.set i d) s.datas

/-- Replace the variant of a record, keeping its use count. -/
def setDataVal (s : Store) (d : DataId) (n : HNode) : Store :=
  match s.datas[d]? with
  | none => s
  | some r => Store.mk s.impls (s.datas.set d (HRec.mk r.rc n))

/-- Set the use count of a record. -/
def setRc (s : Store) (d : DataId) (k : Nat) : Store :=
  match s.datas[d]? with
  | none => s
  | some r => Store.mk s.impls (s.datas.set d (HRec.mk k r.val))

/-- `shared_ptr` copy: use count up. -/
def bumpRC (s : Store) (d : DataId) : Store := setRc s d (rcOf s d + 1)

/-- `shared_ptr` release: use count down. -/
def decRC (s : Store) (d : DataId) : Store := setRc s d (rcOf s d - 1)

/-- Allocate a fresh record. -/
def allocData (s : Store) (r : HRec) : DataId × Store :=
  (s.datas.length, Store.mk s.impls (s.datas ++ [r]))

/-- Allocate a fresh impl box pointing at `d`. -/
def allocImpl (s : Store) (d : DataId) : ImplId × Store :=
  (s.impls.length, Store.mk (s.impls ++ [some d]) s.datas)

/-- `Impl::AcquireImpl` at the heap grain: a ready impl whose `data_` is a
fresh Null record (the recycling pool is transparent to the heap's
observable state; it is modelled separately as `Pool`). -/
def newImpl (s : Store) : ImplId × Store :=
  let a := allocData s (HRec.mk 1 HNode.hNull)
  allocImpl a.2 a.1

/-- `Impl::operator=(const Impl&)`: `data_ = other.data_` — share the
record: the destination's old record is released, the source's record gains
a reference. -/
def shareData (s : Store) (dst src : ImplId) : Store :=
  match implData s src with
  | none => s
  | some dsrc =>
    let dold := implData s dst
    let s1 := bumpRC (setImpl s dst (some dsrc)) dsrc
    match dold with
    | some dd => decRC s1 dd
    | none => s1

/-- `Json::operator=(const Json&)`: self-assignment check, then the `Impl`
assignment. -/
def assignJson (s : Store) (dst src : ImplId) : Store :=
  if dst = src then s else shareData s dst src

/-- `Json::Json(const Json&)`: `impl_(Impl::AcquireImpl())` then
`*impl_ = *other.impl_`; returns the fresh root impl. -/
def copyJson (s : Store) (src : ImplId) : ImplId × Store :=
  let n := newImpl s
  (n.1, assignJson n.2 n.1 src)

/-- Copy construction of every element of a `std::vector<Json>` (inside the
variant copy of `EnsureUnique`). -/
def cloneChildList (s : Store) : List ImplId → List ImplId × Store
  | [] => ([], s)
  | e :: t =>
    let c := copyJson s e
    let r := cloneChildList c.2 t
    (c.1 :: r.1, r.2)

/-- Copy construction of every entry of the object map. -/
def cloneEntryList (s : Store) : List (Bytes × ImplId) → List (Bytes × ImplId) × Store
  | [] => ([], s)
  | kv :: t =>
    let c := copyJson s kv.2
    let r := cloneEntryList c.2 t
    ((kv.1, c.1) :: r.1, r.2)

/-- `new_data->value_ = data_->value_`: copying the variant copies scalars
and strings by value and copy-constructs nested `Json` objects. -/
def cloneNode (s : Store) : HNode → HNode × Store
  | .hArr es => let r := cloneChildList s es; (.hArr r.1, r.2)
  | .hObj kvs => let r := cloneEntryList s kvs; (.hObj r.1, r.2)
  | n => (n, s)

/-- `Json::Impl::EnsureUnique`: when the record is shared (`use_count() > 1`)
attach a fresh record holding a copy of the variant and release the old
one. -/
def EnsureUnique (s : Store) (i : ImplId) : Store :=
  match implData s i with
  | none => s
  | some d =>
    if rcOf s d > 1 then
      match dataVal s d with
      | none => s
      | some n =>
        let c := cloneNode s n
        let a := allocData c.2 (HRec.mk 1 c.1)
        decRC (setImpl a.2 i (some a.1)) d
    else s

/-- The payloads `Set<T>` / `SetNull` / `SetArray` / `SetObject` can install:
scalars and *empty* containers. -/
inductive ScalarMut where
  | sNull
  | sBool (b : Bool)
  | sNum (m e : Int)
  | sStr (t : Bytes)
  | sArr
  | sObj
deriving DecidableEq

/-- The node installed by each setter. -/
def scalarNode : ScalarMut → HNode
  | .sNull => .hNull
  | .sBool b => .hBool b
  | .sNum m e => .hNum m e
  | .sStr t => .hStr t
  | .sArr => .hArr []
  | .sObj => .hObj []

/-- `Impl::SetNull` .. `Impl::SetObject`: `EnsureUnique`, then assign the
variant. -/
def setScalar (s : Store) (i : ImplId) (n : HNode) : Store :=
  let s1 := EnsureUnique s i
  match implData s1 i with
  | none => s1
  | some d => setDataVal s1 d n

/-- `Impl::PushBack` called as `c.PushBack(Json(src))`: the argument copy is
made at the call site, then `GetArray()` (`EnsureUnique` plus tag check)
and `push_back` moves the copy's impl into the vector. -/
def pushBack (s : Store) (c : ImplId) (src : ImplId) : Store :=
  let p := copyJson s src
  let s1 := EnsureUnique p.2 c
  match implData s1 c with
  | none => s1
  | some d =>
    match dataVal s1 d with
    | some (.hArr es) => setDataVal s1 d (.hArr (es ++ [p.1]))
    | _ => s1

/-- Mark a list of impl boxes dead (their `Json` owners were destroyed; the
pooled boxes keep their `data_`, so no use count changes — see
`ReleaseImpl`). -/
def killAll (s : Store) : List ImplId → Store
  | [] => s
  | e :: t => killAll (setImpl s e none) t

/-- `Impl::PopBack`: `GetArray()` then `pop_back`, destroying the last
element's `Json`. -/
def popBack (s : Store) (c : ImplId) : Store :=
  let s1 := EnsureUnique s c
  match implData s1 c with
  | none => s1
  | some d =>
    match dataVal s1 d with
    | some (.hArr es) =>
      match es.getLast? with
      | none => s1
      | some last => setImpl (setDataVal s1 d (.hArr es.dropLast)) last none
    | _ => s1

/-- `Impl::Remove`: `GetObject()` then `erase(key)`, destroying the removed
entry's `Json`. -/
def removeKey (s : Store) (c : ImplId) (k : Bytes) : Store :=
  let s1 := EnsureUnique s c
  match implData s1 c with
  | none => s1
  | some d =>
    match dataVal s1 d with
    | some (.hObj kvs) =>
      killAll (setDataVal s1 d (.hObj (kvs.filter (fun kv => !(kv.1 = k : Bool)))))
        ((kvs.filter (fun kv => (kv.1 = k : Bool))).map Prod.snd)
    | _ => s1

/-- Association lookup among object entries. -/
def lookupEntry (kvs : List (Bytes × ImplId)) (k : Bytes) : Option ImplId :=
  match kvs with
  | [] => none
  | kv :: t => if kv.1 = k then some kv.2 else lookupEntry t k

/-- One subscript step of a mutation path. -/
inductive PathStep where
  | idx (n : Nat)
  | key (k : Bytes)
deriving DecidableEq

/-- One `operator[]` step: `Impl::At(size_t)` via non-const `GetArray()`
(clone-if-shared, bounds check) or `Impl::operator[](key)` via non-const
`GetObject()` (clone-if-shared, create a Null member when absent).  On a
type or bounds error the C++ throws; the state reached so far remains. -/
def resolveStep (s : Store) (i : ImplId) : PathStep → Option ImplId × Store
  | .idx n =>
    let s1 := EnsureUnique s i
    match implData s1 i with
    | none => (none, s1)
    | some d =>
      match dataVal s1 d with
      | some (.hArr es) => (es[n]?, s1)
      | _ => (none, s1)
  | .key k =>
    let s1 := EnsureUnique s i
    match implData s1 i with
    | none => (none, s1)
    | some d =>
      match dataVal s1 d with
      | some (.hObj kvs) =>
        match lookupEntry kvs k with
        | some e => (some e, s1)
        | none =>
          let ni := newImpl s1
          (some ni.1, setDataVal ni.2 d (.hObj (kvs ++ [(k, ni.1)])))
      | _ => (none, s1)

/-- A mutating operation applied at the end of a subscript path. -/
inductive Mut where
  | mSet (sm : ScalarMut)
  | mPush (src : ImplId)
  | mPop
  | mRemove (k : Bytes)
  | mAssign (src : ImplId)
deriving DecidableEq

/-- Dispatch of the final mutating operation. -/
def applyMut (s : Store) (i : ImplId) : Mut → Store
  | .mSet sm => setScalar s i (scalarNode sm)
  | .mPush src => pushBack s i src
  | .mPop => popBack s i
  | .mRemove k => removeKey s i k
  | .mAssign src => assignJson s i src

/-- A whole mutation `root[p₁][p₂]….op(…)`: subscript steps, then the final
operation.  A failed step throws in C++; the state reached so far remains. -/
def mutate (s : Store) (i : ImplId) : List PathStep → Mut → Store
  | [], m => applyMut s i m
  | st :: rest, m =>
    let r := resolveStep s i st
    match r.1 with
    | some j => mutate r.2 j rest m
    | none => r.2

/-- The observable value reached from an impl: recursive dereference, with
fuel (the heap may be cyclic). -/
def readback (s : Store) : Nat → ImplId → Option JVal
  | 0, _ => none
  | fuel + 1, i =>
    match implData s i with
    | none => none
    | some d =>
      match dataVal s d with
      | none => none
      | some .hNull => some .null
      | some (.hBool b) => some (.boolean b)
      | some (.hNum m e) => some (.number m e)
      | some (.hStr t) => some (.string t)
      | some (.hArr es) => (es.mapM (readback s fuel)).map JVal.array
      | some (.hObj kvs) =>
          (kvs.mapM (fun kv => (readback s fuel kv.2).map (fun w => (kv.1, w)))).map
            JVal.object

/-! #### Heap well-formedness -/

/-- The number of impl boxes pointing at a record (`shared_ptr` holders other
than pooled boxes). -/
def refCount (s : Store) (d : DataId) : Nat :=
  s.impls.countP (fun o => o == some d)

/-- How many times an impl box occurs as a child across all records. -/
def childOccurs (s : Store) (e : ImplId) : Nat :=
  (s.datas.map (fun r => (childIds r.val).count e)).sum

/-- All references stay inside the heap. -/
def Closed (s : Store) : Prop :=
  (∀ o ∈ s.impls, ∀ d, o = some d → d < s.datas.length) ∧
  (∀ r ∈ s.datas, ∀ e ∈ childIds r.val, e < s.impls.length)

/-- Impl boxes referenced by records are live (every element `Json` owns its
box). -/
def ChildrenLive (s : Store) : Prop :=
  ∀ r ∈ s.datas, ∀ e ∈ childIds r.val, (implData s e).isSome

/-- Use counts never undercount the boxes that point at a record. -/
def RCok (s : Store) : Prop :=
  ∀ d, d < s.datas.length → refCount s d ≤ rcOf s d

/-- Unique ownership: each impl box is owned by at most one container slot
(`std::unique_ptr` semantics). -/
def OwnOnce (s : Store) : Prop :=
  ∀ e, e < s.impls.length → childOccurs s e ≤ 1

/-- The heap invariant. -/
def WF (s : Store) : Prop :=
  Closed s ∧ ChildrenLive s ∧ RCok s ∧ OwnOnce s

/-- A user-held root `Json`: its box is live and owned by no container. -/
def Root (s : Store) (v : ImplId) : Prop :=
  (implData s v).isSome ∧ childOccurs s v = 0

/-- Pointer reachability from a root: the impl boxes whose state a readback
of that root inspects. -/
inductive ReachI (s : Store) (root : ImplId) : ImplId → Prop
  | refl : ReachI s root root
  | step {i : ImplId} {d : DataId} {n : HNode} {e : ImplId} :
      ReachI s root i → implData s i = some d → dataVal s d = some n →
      e ∈ childIds n → ReachI s root e

/-- Two heaps agree on everything a readback of `root` can see: the box
pointers of all reachable boxes and the variants of the records they point
at.  Use counts are deliberately *not* observable. -/
def Agree (s s2 : Store) (root : ImplId) : Prop :=
  ∀ i, ReachI s root i → implData s2 i = implData s i ∧
    ∀ d, implData s i = some d → dataVal s2 d = dataVal s d

/-- A heap extended conservatively: every pre-existing box still points the
same way, every pre-existing record variant reads the same, and container
ownership counts are untouched (only fresh boxes are retargeted and only use
counts move). -/
def Grows (s s2 : Store) : Prop :=
  s.impls.length ≤ s2.impls.length ∧ s.datas.length ≤ s2.datas.length ∧
  (∀ j, j < s.impls.length → implData s2 j = implData s j) ∧
  (∀ d, d < s.datas.length → dataVal s2 d = dataVal s d) ∧
  (∀ e, childOccurs s2 e = childOccurs s e)

/-- The slice of the heap invariant the copy-independence frame proof
threads through every intermediate state. -/
def InvW (s : Store) : Prop := Closed s ∧ RCok s ∧ OwnOnce s

/-! #### The serializer with the circular check (`Printer`) -/

/-- Failures of a heap serialization: the circular-reference
`JsonException`, a dangling pointer, or model fuel exhaustion (the C++
recursion is bounded only by the stack — detecting a cycle needs at most one
level per distinct `Impl`). -/
inductive PrintErr where
  | circular
  | invalid
  | noFuel
deriving DecidableEq

mutual

/-- `Printer::PrintWithCircularCheck`: fail if this `Impl` is already being
visited, else insert it, print its record, and remove it (removal on both
paths is implicit here: `visiting` is passed downward only).  Every mutual
call consumes one unit of fuel; the C++ recursion is bounded by the call
stack. -/
def printWithCheck (s : Store) (fuel : Nat) (visiting : List ImplId) (p : Bool)
    (ind : Nat) (i : ImplId) : Except PrintErr Bytes :=
  if i ∈ visiting then .error .circular
  else
    match fuel with
    | 0 => .error .noFuel
    | fuel + 1 =>
      match implData s i with
      | none => .error .invalid
      | some d =>
        match dataVal s d with
        | none => .error .invalid
        | some n => printNode s fuel (i :: visiting) p ind n
termination_by structural fuel

/-- `Printer::Print` / `PrintValue` on one variant. -/
def printNode (s : Store) (fuel : Nat) (visiting : List ImplId) (p : Bool)
    (ind : Nat) (n : HNode) : Except PrintErr Bytes :=
  match n with
  | .hNull => .ok [110, 117, 108, 108]
  | .hBool b => .ok (if b then [116, 114, 117, 101] else [102, 97, 108, 115, 101])
  | .hNum m e => .ok (renderNum m e)
  | .hStr t => .ok (renderString t)
  | .hArr es =>
    match es with
    | [] => .ok [91, 93]
    | _ :: _ =>
      match fuel with
      | 0 => .error .noFuel
      | fuel + 1 =>
        match printArrItems s fuel visiting p (ind + 1) es with
        | .error er => .error er
        | .ok b => .ok ([91] ++ nlB p ++ b ++ indentB p ind ++ [93])
  | .hObj kvs =>
    match kvs with
    | [] => .ok [123, 125]
    | _ :: _ =>
      match fuel with
      | 0 => .error .noFuel
      | fuel + 1 =>
        match printObjEntries s fuel visiting p (ind + 1) kvs with
        | .error er => .error er
        | .ok b => .ok ([123] ++ nlB p ++ b ++ indentB p ind ++ [125])
termination_by structural fuel

/-- The element loop of `PrintValue(const Array&)`. -/
def printArrItems (s : Store) (fuel : Nat) (visiting : List ImplId) (p : Bool)
    (ind : Nat) (es : List ImplId) : Except PrintErr Bytes :=
  match fuel with
  | 0 => .error .noFuel
  | fuel + 1 =>
    match es with
    | [] => .ok []
    | [e] =>
      (printWithCheck s fuel visiting p ind e).map
        (fun b => indentB p ind ++ b ++ nlB p)
    | e :: f :: t =>
      match printWithCheck s fuel visiting p ind e with
      | .error er => .error er
      | .ok b =>
        (printArrItems s fuel visiting p ind (f :: t)).map
          (fun rest => indentB p ind ++ b ++ [44] ++ nlB p ++ rest)
termination_by structural fuel

/-- The entry loop of `PrintValue(const Object&)`. -/
def printObjEntries (s : Store) (fuel : Nat) (visiting : List ImplId) (p : Bool)
    (ind : Nat) (kvs : List (Bytes × ImplId)) : Except PrintErr Bytes :=
  match fuel with
  | 0 => .error .noFuel
  | fuel + 1 =>
    match kvs with
    | [] => .ok []
    | [kv] =>
      (printWithCheck s fuel visiting p ind kv.2).map
        (fun b => indentB p ind ++ renderString kv.1 ++ colonB p ++ b ++ nlB p)
    | kv :: f :: t =>
      match printWithCheck s fuel visiting p ind kv.2 with
      | .error er => .error er
      | .ok b =>
        (printObjEntries s fuel visiting p ind (f :: t)).map
          (fun rest =>
            indentB p ind ++ renderString kv.1 ++ colonB p ++ b ++ [44] ++ nlB p ++ rest)
termination_by structural fuel

end

/-- `Json::Impl::ToString` at the heap level: a fresh `Printer` whose
`visiting_` set is empty, entered through `PrintWithCircularCheck(this)`. -/
def ToStringHeap (s : Store) (fuel : Nat) (i : ImplId) (p : Bool) :
    Except PrintErr Bytes :=
  printWithCheck s fuel [] p 0 i

/-! #### The circular scenario `a = Object(); a["self"] = a;` -/

/-- The empty heap. -/
def emptyStore : Store := Store.mk [] []

/-- `auto a = Json::Object();` — the root impl id. -/
def c3A : ImplId := (newImpl emptyStore).1

/-- The heap after `a = Json::Object()`. -/
def c3S1 : Store := setScalar (newImpl emptyStore).2 c3A (HNode.hObj [])

/-- The heap after `a["self"] = a;` (`self` = bytes 115 101 108 102). -/
def c3S2 : Store :=
  mutate c3S1 c3A [PathStep.key [115, 101, 108, 102]] (Mut.mAssign c3A)

end Impl

/-! ### Auxiliary notions for the round-trip development -/

mutual

/-- Fuel adequate for `parseValue` on the rendering of a value. -/
def pSize : JVal → Nat
  | .null => 1
  | .boolean _ => 1
  | .number _ _ => 1
  | .string _ => 1
  | .array xs => 1 + pSizeList xs
  | .object kvs => 1 + pSizeEntries kvs

/-- Fuel adequate for `parseArrayItems` on a rendered element list. -/
def pSizeList : List JVal → Nat
  | [] => 1
  | x :: t => 1 + pSize x + pSizeList t

/-- Fuel adequate for `parseObjectItems` on a rendered member list. -/
def pSizeEntries : List (Bytes × JVal) → Nat
  | [] => 1
  | kv :: t => 1 + pSize kv.2 + pSizeEntries t

end

theorem skipWs_idem (s : Bytes) : skipWs (skipWs s) = skipWs s := by
  induction s with
  | nil => rfl
  | cons c t ih =>
    by_cases h : isSpaceB c
    · simpa [skipWs, List.dropWhile, h] using ih
    · simp [skipWs, List.dropWhile, h]

theorem parseValue_skipWs (f : Nat) (hf : f ≠ 0) (s : Bytes) :
    parseValue f (skipWs s) = parseValue f s := by
  cases f with
  | zero => exact absurd rfl hf
  | succ f => simp [parseValue, skipWs_idem]

theorem digitsAuxF_eq_digits : ∀ (fuel n : Nat), n ≤ fuel → digitsAuxF fuel n = Nat.digits 10 n
  | 0, n, h => by
    have : n = 0 := by omega
    simp [digitsAuxF, this]
  | fuel + 1, n, h => by
    by_cases hn : n = 0
    · simp [digitsAuxF, hn]
    · have hdiv : n / 10 ≤ fuel := by
        have := Nat.div_lt_self (Nat.pos_of_ne_zero hn) (by omega : 1 < 10)
        omega
      simp only [digitsAuxF, hn, if_false]
      rw [digitsAuxF_eq_digits fuel (n / 10) hdiv,
        Nat.digits_def' (by omega : 1 < 10) (Nat.pos_of_ne_zero hn)]

theorem digitsLSB_eq_digits (n : Nat) : digitsLSB n = Nat.digits 10 n :=
  digitsAuxF_eq_digits n n (Nat.le_refl n)

theorem ofDigits_eq_zero_of_all_zero {t : List Nat} (h : ∀ x ∈ t, x = 0) :
    Nat.ofDigits 10 t = 0 := by
  induction t with
  | nil => simp [Nat.ofDigits]
  | cons x r ih =>
    have hx := h x (by simp)
    have hr := ih (fun y hy => h y (by simp [hy]))
    simp [Nat.ofDigits_cons, hx, hr]

theorem dropWhile_head_not {α : Type} (p : α → Bool) :
    ∀ (l : List α) (d : α) (t : List α), l.dropWhile p = d :: t → p d = false := by
  intro l
  induction l with
  | nil => intro d t h; simp [List.dropWhile] at h
  | cons c r ih =>
    intro d t h
    by_cases hc : p c
    · exact ih d t (by simpa [List.dropWhile, hc] using h)
    · rw [List.dropWhile_cons_of_neg (by simp [hc])] at h
      cases h
      simpa using hc

theorem stripTens_spec (n : Nat) (hn : n ≠ 0) :
    n = (stripTens n).1 * 10 ^ (stripTens n).2 ∧ ¬ (10 ∣ (stripTens n).1) := by
  have hL : digitsLSB n = Nat.digits 10 n := digitsLSB_eq_digits n
  have hsplit :
      (digitsLSB n).takeWhile (fun d => d = 0) ++ (digitsLSB n).dropWhile (fun d => d = 0)
        = digitsLSB n := List.takeWhile_append_dropWhile _ _
  have hval : Nat.ofDigits 10 (digitsLSB n) = n := by rw [hL]; exact Nat.ofDigits_digits 10 n
  have htw : Nat.ofDigits 10 ((digitsLSB n).takeWhile (fun d => d = 0)) = 0 := by
    refine ofDigits_eq_zero_of_all_zero ?_
    intro x hx
    have := List.mem_takeWhile_imp hx
    simpa using this
  have hgoal1 : n = (stripTens n).1 * 10 ^ (stripTens n).2 := by
    have := congrArg (Nat.ofDigits 10) hsplit
    rw [Nat.ofDigits_append, htw, hval] at this
    simpa [stripTens, Nat.mul_comm] using this.symm
  refine ⟨hgoal1, ?_⟩
  rcases hdw : (digitsLSB n).dropWhile (fun d => d = 0) with _ | ⟨d, t⟩
  · exfalso
    apply hn
    rw [hgoal1]
    simp [stripTens, hdw, Nat.ofDigits]
  · have hd0 : d ≠ 0 := by
      have := dropWhile_head_not (fun d => d = 0) (digitsLSB n) d t hdw
      simpa using this
    have hdlt : d < 10 := by
      have hmem : d ∈ digitsLSB n := by
        have hsub := (List.dropWhile_suffix (l := digitsLSB n) (fun d => d = 0)).subset
        exact hsub (by rw [hdw]; simp)
      rw [hL] at hmem
      exact Nat.digits_lt_base (by omega) hmem
    simp only [stripTens, hdw]
    rw [Nat.ofDigits_cons]
    omega

theorem stripTens_of_not_dvd (n : Nat) (hn : n ≠ 0) (hd : ¬ (10 ∣ n)) :
    stripTens n = (n, 0) := by
  have hL : digitsLSB n = Nat.digits 10 n := digitsLSB_eq_digits n
  have hmod : n % 10 ≠ 0 := by omega
  have hdef : Nat.digits 10 n = n % 10 :: Nat.digits 10 (n / 10) :=
    Nat.digits_def' (by omega) (Nat.pos_of_ne_zero hn)
  have hcons : digitsLSB n = n % 10 :: Nat.digits 10 (n / 10) := by rw [hL, hdef]
  simp only [stripTens, hcons]
  rw [List.takeWhile_cons_of_neg (by simp [hmod]), List.dropWhile_cons_of_neg (by simp [hmod])]
  simp only [List.length_nil]
  rw [← hdef, Nat.ofDigits_digits]

theorem canonNum_canonical (q E : Int) (hq : q ≠ 0) (hd : ¬ (10 ∣ q.natAbs)) :
    canonNum q E = (q, E) := by
  simp only [canonNum, hq, if_false]
  rw [stripTens_of_not_dvd q.natAbs (by simpa using hq) hd]
  by_cases hneg : q < 0
  · simp only [hneg, if_true]
    refine Prod.ext ?_ (by simp)
    simp only
    omega
  · simp only [hneg, if_false]
    refine Prod.ext ?_ (by simp)
    simp only
    omega

theorem canonNum_props (m e : Int) (hm : m ≠ 0) :
    (canonNum m e).1 ≠ 0 ∧ ¬ (10 ∣ (canonNum m e).1.natAbs) ∧
    (canonNum m e).1.natAbs = (stripTens m.natAbs).1 ∧
    ((canonNum m e).1 < 0 ↔ m < 0) ∧
    (canonNum m e).2 = e + ((stripTens m.natAbs).2 : Int) := by
  obtain ⟨hval, hdvd⟩ := stripTens_spec m.natAbs (by simpa using hm)
  have hA0 : (stripTens m.natAbs).1 ≠ 0 := by
    intro h
    rw [h] at hval
    simp at hval
    omega
  simp only [canonNum, hm, if_false]
  by_cases hneg : m < 0
  · rw [if_pos hneg]
    refine ⟨by simpa using hA0, by simpa using hdvd, by simp, ?_, by simp⟩
    have hpos : (0 : Int) < ((stripTens m.natAbs).1 : Int) := by
      exact_mod_cast Nat.pos_of_ne_zero hA0
    constructor
    · intro _; exact hneg
    · intro _; omega
  · rw [if_neg hneg]
    refine ⟨by simpa using hA0, by simpa using hdvd, by simp, ?_, by simp⟩
    have hpos : (0 : Int) ≤ ((stripTens m.natAbs).1 : Int) := by positivity
    constructor
    · intro hcon; omega
    · intro hcon; exact absurd hcon hneg

theorem canonNum_idem (m e : Int) :
    canonNum (canonNum m e).1 (canonNum m e).2 = canonNum m e := by
  by_cases hm : m = 0
  · simp [canonNum, hm]
  · obtain ⟨h1, h2, _, _, _⟩ := canonNum_props m e hm
    rw [canonNum_canonical _ _ h1 h2]

/-- C10: every non-moved-from `Json` stores exactly one of the six kinds —
exactly one of `IsNull`/…/`IsObject` is true and `GetType` returns the
matching tag — while for a moved-from `Json` all six predicates are false
and `GetType` still returns `Null`.  Stated for every handle value, so every
public operation (all of which produce handles) preserves it. -/
theorem C10_exactly_one_kind (h : Handle) :
    ((Json.IsNull h).toNat + (Json.IsBoolean h).toNat + (Json.IsNumber h).toNat
      + (Json.IsString h).toNat + (Json.IsArray h).toNat + (Json.IsObject h).toNat
      = if h.isSome then 1 else 0)
    ∧ (Json.IsNull h = (h.isSome && (Json.GetType h == JType.Null)))
    ∧ (Json.IsBoolean h = (h.isSome && (Json.GetType h == JType.Boolean)))
    ∧ (Json.IsNumber h = (h.isSome && (Json.GetType h == JType.Number)))
    ∧ (Json.IsString h = (h.isSome && (Json.GetType h == JType.String)))
    ∧ (Json.IsArray h = (h.isSome && (Json.GetType h == JType.Array)))
    ∧ (Json.IsObject h = (h.isSome && (Json.GetType h == JType.Object)))
    ∧ Json.GetType (none : Handle) = JType.Null := by
  refine ⟨?_, ?_, ?_, ?_, ?_, ?_, ?_, rfl⟩ <;>
    (cases h with
     | none => rfl
     | some v => cases v <;> rfl)

/-- C6: after `Json moved = std::move(original)`, the six type predicates on
`original` return false, `GetType` returns `Null`, and every content or
mutating operation (`Get`, `Set`, both `operator[]`s, `PushBack`, `PopBack`,
`Size`, `Contains`, `Remove`, `Keys`, `ToString`) raises the generic
`JsonException`. -/
theorem C6_moved_from_behavior (orig : Handle) (t : Json.CType) (x : Json.CVal)
    (elem : JVal) (i : Nat) (k : Bytes) (pretty : Bool) :
    Json.IsNull (Json.moveFrom orig).2 = false
    ∧ Json.IsBoolean (Json.moveFrom orig).2 = false
    ∧ Json.IsNumber (Json.moveFrom orig).2 = false
    ∧ Json.IsString (Json.moveFrom orig).2 = false
    ∧ Json.IsArray (Json.moveFrom orig).2 = false
    ∧ Json.IsObject (Json.moveFrom orig).2 = false
    ∧ Json.GetType (Json.moveFrom orig).2 = JType.Null
    ∧ Json.Get t (Json.moveFrom orig).2 = .error .generic
    ∧ Json.Set (Json.moveFrom orig).2 x = .error .generic
    ∧ Json.atIdx (Json.moveFrom orig).2 i = .error .generic
    ∧ Json.objIndexIns (Json.moveFrom orig).2 k = .error .generic
    ∧ Json.atKeyConst (Json.moveFrom orig).2 k = .error .generic
    ∧ Json.PushBack (Json.moveFrom orig).2 elem = .error .generic
    ∧ Json.PopBack (Json.moveFrom orig).2 = .error .generic
    ∧ Json.Size (Json.moveFrom orig).2 = .error .generic
    ∧ Json.Contains (Json.moveFrom orig).2 k = .error .generic
    ∧ Json.Remove (Json.moveFrom orig).2 k = .error .generic
    ∧ Json.Keys (Json.moveFrom orig).2 = .error .generic
    ∧ Json.ToStringH (Json.moveFrom orig).2 pretty = .error .generic :=
  ⟨rfl, rfl, rfl, rfl, rfl, rfl, rfl, rfl, rfl, rfl,
   rfl, rfl, rfl, rfl, rfl, rfl, rfl, rfl, rfl⟩

/-- C7: `TryGet<T>` never throws: for every handle (including the moved-from
state) and every supported type category it returns `.ok` — an empty result
exactly when the handle is moved-from or the stored tag does not match `T`,
and the stored value otherwise (`convertTo` is `some` precisely on a tag
match). -/
theorem C7_tryget_never_throws (t : Json.CType) (h : Handle) :
    Json.TryGet t h = .ok (h.bind (Json.convertTo t)) := by
  cases h with
  | none => rfl
  | some v => cases t <;> cases v <;> rfl

/-- C4 (counterexample): an object value is not an array, yet its
array-iteration range is not empty — `begin()` is index 0 and `end()` is
index `Size()`, here 1. -/
theorem C4_counterexample :
    Json.IsArray (some (JVal.object [([97], JVal.null)])) = false
    ∧ Json.beginIter (some (JVal.object [([97], JVal.null)])) ≠
        Json.endIter (some (JVal.object [([97], JVal.null)])) :=
  ⟨rfl, by decide⟩

/-- C4 (amended): for every value that is neither an array nor an object —
null, boolean, number, string, or moved-from — `begin()` equals `end()`, so
array iteration visits nothing and never fails; objects, however, get the
non-empty range `[0, Size())`. -/
theorem C4_empty_range_non_container (h : Handle)
    (hna : Json.IsArray h = false) (hno : Json.IsObject h = false) :
    Json.beginIter h = Json.endIter h := by
  cases h with
  | none => rfl
  | some v =>
    cases v with
    | null => rfl
    | boolean b => rfl
    | number m e => rfl
    | string t => rfl
    | array xs => simp [Json.IsArray, typeOf] at hna
    | object kvs => simp [Json.IsObject, typeOf] at hno

/-- Witness for C4 (amended) at a number value. -/
theorem C4_empty_range_witness :
    Json.beginIter (some (JVal.number 1 0)) = Json.endIter (some (JVal.number 1 0)) :=
  C4_empty_range_non_container (some (JVal.number 1 0)) rfl rfl

/-- C5 (counterexample): releasing an impl that holds `true` into a fresh
pool leaves a pooled slot whose stored value is `boolean true`, not Null —
the slot is *not* reset on release. -/
theorem C5_counterexample :
    (Impl.ReleaseImpl (Impl.Pool.mk [] 0) (JVal.boolean true)).object_pool_
      = [some (JVal.boolean true)]
    ∧ JVal.boolean true ≠ JVal.null :=
  ⟨rfl, by intro hc; cases hc⟩

/-- C5 (amended): the reset to the Null state happens on *acquisition*, not
on release — `AcquireImpl` always hands out a Null-initialized impl, while a
released impl is parked in the pool still carrying the value it had, until
it is reacquired. -/
theorem C5_pool_reset_on_acquire (p : Impl.Pool) (v : JVal)
    (hcap : p.pool_index_ < 1000) :
    (Impl.AcquireImpl p).1 = JVal.null
    ∧ (Impl.ReleaseImpl p v).object_pool_[p.pool_index_]? = some (some v) := by
  constructor
  · show (Impl.AcquireImpl p).1 = JVal.null
    simp only [Impl.AcquireImpl]
    split <;> rfl
  · show (Impl.ReleaseImpl p v).object_pool_[p.pool_index_]? = some (some v)
    unfold Impl.ReleaseImpl
    rw [if_pos hcap]
    split
    · rename_i hlen
      rw [List.getElem?_set_self]
      rw [List.length_append, List.length_replicate]
      omega
    · rename_i hlen
      rw [List.getElem?_set_self]
      omega

/-- Witness for C5 (amended) at a fresh pool and the value `true`. -/
theorem C5_pool_reset_witness :
    (Impl.AcquireImpl (Impl.Pool.mk [] 0)).1 = JVal.null
    ∧ (Impl.ReleaseImpl (Impl.Pool.mk [] 0)
        (JVal.boolean true)).object_pool_[(0 : Nat)]? = some (some (JVal.boolean true)) :=
  C5_pool_reset_on_acquire (Impl.Pool.mk [] 0) (JVal.boolean true) (by decide)

/-- C8: parsing an object text with a duplicated key succeeds and keeps the
last occurrence — `Parse "{\"a\": 1, \"a\": 2}"` (the byte list below)
yields an object with the single member `a ↦ 2`, and reading key `a` gives
the number 2. -/
theorem C8_last_write_wins :
    Json.Parse [123, 34, 97, 34, 58, 32, 49, 44, 32, 34, 97, 34, 58, 32, 50, 125]
      = .ok (JVal.object [([97], JVal.number 2 0)])
    ∧ Json.atKeyConst (some (JVal.object [([97], JVal.number 2 0)])) [97]
      = .ok (JVal.number 2 0) :=
  ⟨rfl, rfl⟩

/-- With any nonzero fuel, a value starting with a quote is parsed by the
string scanner. -/
theorem parseValue_quote (fuel : Nat) (hf : fuel ≠ 0) (t : Bytes) :
    parseValue fuel (34 :: t) = (parseStringBody t).map (fun r => (JVal.string r.1, r.2)) := by
  cases fuel with
  | zero => exact absurd rfl hf
  | succ f => simp [parseValue, skipWs, isSpaceB]

/-- C9: for a string consisting of one `\uXXXX` escape, parsing fails with a
`ParseError` when the four characters after `\u` are not all hexadecimal
digits; otherwise the parsed string holds the denoted code point itself when
it is at most 0x7F, and the fixed placeholder byte `?` (0x3F) instead of the
decoded code point when it is larger. -/
theorem C9_unicode_escape (h1 h2 h3 h4 : Nat) :
    Json.Parse [34, 92, 117, h1, h2, h3, h4, 34] =
      (if isHexDigit h1 && isHexDigit h2 && isHexDigit h3 && isHexDigit h4 then
        .ok (.string
          [if escapeCodePoint h1 h2 h3 h4 ≤ 127 then escapeCodePoint h1 h2 h3 h4 else 63])
      else .error .invalidUnicode) := by
  by_cases hx : (isHexDigit h1 && isHexDigit h2 && isHexDigit h3 && isHexDigit h4) = true
  · simp [Json.Parse, skipWs, isSpaceB, parseValue_quote, parseStringBody, hx,
      escapeCodePoint, Except.map]
  · simp [Json.Parse, skipWs, isSpaceB, parseValue_quote, parseStringBody, hx,
      escapeCodePoint, Except.map]

/-- An `Impl` already in the visiting set is reported as circular whatever
the remaining fuel. -/
theorem printWithCheck_of_mem (s : Impl.Store) (fuel : Nat)
    (visiting : List Impl.ImplId) (p : Bool) (ind : Nat) (i : Impl.ImplId)
    (h : i ∈ visiting) :
    Impl.printWithCheck s fuel visiting p ind i = .error .circular := by
  cases fuel <;> simp [Impl.printWithCheck, h]

/-- C3: after `a = Json::Object(); a["self"] = a;` the heap `c3S2` is cyclic,
and serialization detects it: for every fuel budget of at least 6,
`ToString` fails with the circular-reference exception instead of recursing
unboundedly (in particular it never runs out of fuel). -/
theorem C3_circular_detected (n : Nat) :
    Impl.ToStringHeap Impl.c3S2 (n + 6) Impl.c3A false = .error .circular := by
  simp [Impl.ToStringHeap, Impl.printWithCheck, Impl.printNode, Impl.printObjEntries,
    Impl.implData, Impl.dataVal, Impl.c3S2, Impl.c3S1, Impl.c3A, Impl.mutate,
    Impl.resolveStep, Impl.applyMut, Impl.EnsureUnique, Impl.setScalar, Impl.newImpl,
    Impl.emptyStore, Impl.allocData, Impl.allocImpl, Impl.setDataVal, Impl.rcOf,
    Impl.lookupEntry, Impl.assignJson, Impl.shareData, Impl.bumpRC, Impl.decRC,
    Impl.setRc, Impl.setImpl, printWithCheck_of_mem, Except.map]

end CppJson

namespace CppJson

end CppJson

namespace CppJson

end CppJson

namespace CppJson

end CppJson

namespace CppJson

end CppJson

namespace CppJson

end CppJson

namespace CppJson

end CppJson

namespace CppJson

end CppJson

namespace CppJson

end CppJson

namespace CppJson

end CppJson

namespace CppJson
namespace Impl

/-! ### List accounting helpers -/

theorem countP_set_exchange {α : Type} (p : α → Bool) :
    ∀ (l : List α) (i : Nat) (a b : α), l[i]? = some a →
    (l.set i b).countP p + (if p a then 1 else 0)
      = l.countP p + (if p b then 1 else 0) := by
  intro l
  induction l with
  | nil => intro i a b h; simp at h
  | cons x t ih =>
    intro i a b h
    cases i with
    | zero =>
      simp only [List.getElem?_cons_zero, Option.some_inj] at h
      subst h
      simp only [List.set_cons_zero, List.countP_cons]
      by_cases hb : p b <;> by_cases hx : p x <;> simp [hb, hx] <;> omega
    | succ i =>
      simp only [List.getElem?_cons_succ] at h
      simp only [List.set_cons_succ, List.countP_cons]
      have := ih i a b h
      by_cases hx : p x <;> simp [hx] <;> omega

theorem countP_two {α : Type} (p : α → Bool) :
    ∀ (l : List α) (i j : Nat) (a b : α), i ≠ j →
    l[i]? = some a → l[j]? = some b → p a = true → p b = true →
    2 ≤ l.countP p := by
  intro l
  induction l with
  | nil => intro i j a b _ h; simp at h
  | cons x t ih =>
    intro i j a b hij hi hj hpa hpb
    cases i with
    | zero =>
      simp only [List.getElem?_cons_zero, Option.some_inj] at hi
      subst hi
      cases j with
      | zero => exact absurd rfl hij
      | succ j =>
        simp only [List.getElem?_cons_succ] at hj
        have hmem : b ∈ t := by
          have := List.getElem?_eq_some_iff.mp hj
          obtain ⟨hlt, hget⟩ := this
          exact hget ▸ List.getElem_mem hlt
        have h1 : 1 ≤ t.countP p := by
          rw [List.one_le_countP_iff]
          exact ⟨b, hmem, hpb⟩
        simp [List.countP_cons, hpa]
        exact ⟨b, hmem, hpb⟩
    | succ i =>
      simp only [List.getElem?_cons_succ] at hi
      cases j with
      | zero =>
        simp only [List.getElem?_cons_zero, Option.some_inj] at hj
        subst hj
        have hmem : a ∈ t := by
          obtain ⟨hlt, hget⟩ := List.getElem?_eq_some_iff.mp hi
          exact hget ▸ List.getElem_mem hlt
        have h1 : 1 ≤ t.countP p := by
          rw [List.one_le_countP_iff]
          exact ⟨a, hmem, hpa⟩
        simp [List.countP_cons, hpb]
        exact ⟨a, hmem, hpa⟩
      | succ j =>
        simp only [List.getElem?_cons_succ] at hj
        have := ih i j a b (by omega) hi hj hpa hpb
        simp only [List.countP_cons]
        omega

theorem sum_map_set_exchange {α : Type} (f : α → Nat) :
    ∀ (l : List α) (i : Nat) (a b : α), l[i]? = some a →
    ((l.set i b).map f).sum + f a = (l.map f).sum + f b := by
  intro l
  induction l with
  | nil => intro i a b h; simp at h
  | cons x t ih =>
    intro i a b h
    cases i with
    | zero =>
      simp only [List.getElem?_cons_zero, Option.some_inj] at h
      subst h
      simp only [List.set_cons_zero, List.map_cons, List.sum_cons]
      omega
    | succ i =>
      simp only [List.getElem?_cons_succ] at h
      simp only [List.set_cons_succ, List.map_cons, List.sum_cons]
      have := ih i a b h
      omega

theorem sum_map_set_same {α : Type} (f : α → Nat) (l : List α) (i : Nat) (a b : α)
    (h : l[i]? = some a) (hf : f b = f a) :
    ((l.set i b).map f).sum = (l.map f).sum := by
  have := sum_map_set_exchange f l i a b h
  omega

theorem sum_map_two {α : Type} (f : α → Nat) :
    ∀ (l : List α) (i j : Nat) (a b : α), i ≠ j →
    l[i]? = some a → l[j]? = some b → 1 ≤ f a → 1 ≤ f b →
    2 ≤ (l.map f).sum := by
  intro l
  induction l with
  | nil => intro i j a b _ h; simp at h
  | cons x t ih =>
    intro i j a b hij hi hj hfa hfb
    cases i with
    | zero =>
      simp only [List.getElem?_cons_zero, Option.some_inj] at hi
      subst hi
      cases j with
      | zero => exact absurd rfl hij
      | succ j =>
        simp only [List.getElem?_cons_succ] at hj
        obtain ⟨hlt, hget⟩ := List.getElem?_eq_some_iff.mp hj
        have hmem : b ∈ t := hget ▸ List.getElem_mem hlt
        have : f b ≤ (t.map f).sum := List.le_sum_of_mem (List.mem_map_of_mem f hmem)
        simp only [List.map_cons, List.sum_cons]
        omega
    | succ i =>
      simp only [List.getElem?_cons_succ] at hi
      cases j with
      | zero =>
        simp only [List.getElem?_cons_zero, Option.some_inj] at hj
        subst hj
        obtain ⟨hlt, hget⟩ := List.getElem?_eq_some_iff.mp hi
        have hmem : a ∈ t := hget ▸ List.getElem_mem hlt
        have : f a ≤ (t.map f).sum := List.le_sum_of_mem (List.mem_map_of_mem f hmem)
        simp only [List.map_cons, List.sum_cons]
        omega
      | succ j =>
        simp only [List.getElem?_cons_succ] at hi hj
        have := ih i j a b (by omega) hi hj hfa hfb
        simp only [List.map_cons, List.sum_cons]
        omega

end Impl
end CppJson

namespace CppJson
namespace Impl

/-! ### Primitive heap reads under primitive writes -/

theorem implData_eq_some (s : Store) (i : ImplId) (d : DataId) :
    implData s i = some d ↔ s.impls[i]? = some (some d) := by
  unfold implData
  cases h : s.impls[i]? with
  | none => simp
  | some o => cases o <;> simp

theorem lt_of_implData_some (s : Store) (i : ImplId) (d : DataId)
    (h : implData s i = some d) : i < s.impls.length := by
  rw [implData_eq_some] at h
  exact (List.getElem?_eq_some_iff.mp h).1

theorem implData_setImpl_ne (s : Store) (i : ImplId) (o : Option DataId) (j : ImplId)
    (h : j ≠ i) : implData (setImpl s i o) j = implData s j := by
  simp [implData, setImpl, List.getElem?_set_ne (fun hc => h hc.symm)]

theorem implData_setImpl_self (s : Store) (i : ImplId) (o : Option DataId)
    (h : i < s.impls.length) : implData (setImpl s i o) i = o := by
  simp [implData, setImpl, List.getElem?_set_self, h]

theorem implData_setDataVal (s : Store) (d : DataId) (n : HNode) (j : ImplId) :
    implData (setDataVal s d n) j = implData s j := by
  unfold setDataVal
  cases h : s.datas[d]? <;> rfl

theorem implData_setRc (s : Store) (d : DataId) (k : Nat) (j : ImplId) :
    implData (setRc s d k) j = implData s j := by
  unfold setRc
  cases h : s.datas[d]? <;> rfl

theorem implData_bumpRC (s : Store) (d : DataId) (j : ImplId) :
    implData (bumpRC s d) j = implData s j := implData_setRc s d _ j

theorem implData_decRC (s : Store) (d : DataId) (j : ImplId) :
    implData (decRC s d) j = implData s j := implData_setRc s d _ j

theorem implData_allocData (s : Store) (r : HRec) (j : ImplId) :
    implData (allocData s r).2 j = implData s j := rfl

theorem implData_allocImpl_lt (s : Store) (d : DataId) (j : ImplId)
    (h : j < s.impls.length) : implData (allocImpl s d).2 j = implData s j := by
  simp [implData, allocImpl, List.getElem?_append_left h]

theorem implData_allocImpl_self (s : Store) (d : DataId) :
    implData (allocImpl s d).2 s.impls.length = some d := by
  simp [implData, allocImpl]

theorem dataVal_setImpl (s : Store) (i : ImplId) (o : Option DataId) (d2 : DataId) :
    dataVal (setImpl s i o) d2 = dataVal s d2 := rfl

theorem dataVal_setRc (s : Store) (d : DataId) (k : Nat) (d2 : DataId) :
    dataVal (setRc s d k) d2 = dataVal s d2 := by
  unfold setRc
  cases h : s.datas[d]? with
  | none => rfl
  | some r =>
    by_cases hd : d2 = d
    · subst hd
      have hlt : d2 < s.datas.length := (List.getElem?_eq_some_iff.mp h).1
      simp [dataVal, List.getElem?_set_self, hlt, h]
    · simp [dataVal, List.getElem?_set_ne (fun hc => hd hc.symm)]

theorem dataVal_bumpRC (s : Store) (d : DataId) (d2 : DataId) :
    dataVal (bumpRC s d) d2 = dataVal s d2 := dataVal_setRc s d _ d2

theorem dataVal_decRC (s : Store) (d : DataId) (d2 : DataId) :
    dataVal (decRC s d) d2 = dataVal s d2 := dataVal_setRc s d _ d2

theorem dataVal_setDataVal_ne (s : Store) (d : DataId) (n : HNode) (d2 : DataId)
    (h : d2 ≠ d) : dataVal (setDataVal s d n) d2 = dataVal s d2 := by
  unfold setDataVal
  cases hd : s.datas[d]? with
  | none => rfl
  | some r => simp [dataVal, List.getElem?_set_ne (fun hc => h hc.symm)]

theorem dataVal_setDataVal_self (s : Store) (d : DataId) (n : HNode)
    (h : d < s.datas.length) : dataVal (setDataVal s d n) d = some n := by
  unfold setDataVal
  cases hd : s.datas[d]? with
  | none =>
    rw [List.getElem?_eq_none_iff] at hd
    exact absurd h (Nat.not_lt.mpr hd)
  | some r => simp [dataVal, List.getElem?_set_self, h]

theorem dataVal_allocData_lt (s : Store) (r : HRec) (d2 : DataId)
    (h : d2 < s.datas.length) : dataVal (allocData s r).2 d2 = dataVal s d2 := by
  simp [dataVal, allocData, List.getElem?_append_left h]

theorem dataVal_allocData_self (s : Store) (r : HRec) :
    dataVal (allocData s r).2 s.datas.length = some r.val := by
  simp [dataVal, allocData]

theorem dataVal_allocImpl (s : Store) (d : DataId) (d2 : DataId) :
    dataVal (allocImpl s d).2 d2 = dataVal s d2 := rfl

theorem rcOf_setImpl (s : Store) (i : ImplId) (o : Option DataId) (d2 : DataId) :
    rcOf (setImpl s i o) d2 = rcOf s d2 := rfl

theorem rcOf_setDataVal (s : Store) (d : DataId) (n : HNode) (d2 : DataId) :
    rcOf (setDataVal s d n) d2 = rcOf s d2 := by
  unfold setDataVal
  cases h : s.datas[d]? with
  | none => rfl
  | some r =>
    by_cases hd : d2 = d
    · subst hd
      have hlt : d2 < s.datas.length := (List.getElem?_eq_some_iff.mp h).1
      simp [rcOf, List.getElem?_set_self, hlt, h]
    · simp [rcOf, List.getElem?_set_ne (fun hc => hd hc.symm)]

theorem rcOf_setRc_self (s : Store) (d : DataId) (k : Nat)
    (h : d < s.datas.length) : rcOf (setRc s d k) d = k := by
  unfold setRc
  cases hd : s.datas[d]? with
  | none =>
    rw [List.getElem?_eq_none_iff] at hd
    exact absurd h (Nat.not_lt.mpr hd)
  | some r => simp [rcOf, List.getElem?_set_self, h]

theorem rcOf_setRc_ne (s : Store) (d : DataId) (k : Nat) (d2 : DataId)
    (h : d2 ≠ d) : rcOf (setRc s d k) d2 = rcOf s d2 := by
  unfold setRc
  cases hd : s.datas[d]? with
  | none => rfl
  | some r => simp [rcOf, List.getElem?_set_ne (fun hc => h hc.symm)]

theorem rcOf_allocData_lt (s : Store) (r : HRec) (d2 : DataId)
    (h : d2 < s.datas.length) : rcOf (allocData s r).2 d2 = rcOf s d2 := by
  simp [rcOf, allocData, List.getElem?_append_left h]

theorem rcOf_allocData_self (s : Store) (r : HRec) :
    rcOf (allocData s r).2 s.datas.length = r.rc := by
  simp [rcOf, allocData]

theorem rcOf_allocImpl (s : Store) (d : DataId) (d2 : DataId) :
    rcOf (allocImpl s d).2 d2 = rcOf s d2 := rfl

theorem refCount_setDataVal (s : Store) (d : DataId) (n : HNode) (d2 : DataId) :
    refCount (setDataVal s d n) d2 = refCount s d2 := by
  unfold setDataVal
  cases h : s.datas[d]? <;> rfl

theorem refCount_setRc (s : Store) (d : DataId) (k : Nat) (d2 : DataId) :
    refCount (setRc s d k) d2 = refCount s d2 := by
  unfold setRc
  cases h : s.datas[d]? <;> rfl

theorem refCount_allocData (s : Store) (r : HRec) (d2 : DataId) :
    refCount (allocData s r).2 d2 = refCount s d2 := rfl

theorem refCount_allocImpl (s : Store) (d : DataId) (d2 : DataId) :
    refCount (allocImpl s d).2 d2 = refCount s d2 + (if d = d2 then 1 else 0) := by
  simp only [refCount, allocImpl, List.countP_append, List.countP_cons, List.countP_nil]
  by_cases h : d = d2 <;> simp [h]

theorem refCount_setImpl_exchange (s : Store) (i : ImplId) (o oOld : Option DataId)
    (h : s.impls[i]? = some oOld) (d2 : DataId) :
    refCount (setImpl s i o) d2 + (if oOld = some d2 then 1 else 0)
      = refCount s d2 + (if o = some d2 then 1 else 0) := by
  have := countP_set_exchange (fun x => x == some d2) s.impls i oOld o h
  simp only [refCount, setImpl]
  by_cases h1 : oOld = some d2 <;> by_cases h2 : o = some d2 <;>
    simp [h1, h2] at this ⊢ <;> omega

theorem childOccurs_setImpl (s : Store) (i : ImplId) (o : Option DataId) (e : ImplId) :
    childOccurs (setImpl s i o) e = childOccurs s e := rfl

theorem childOccurs_setRc (s : Store) (d : DataId) (k : Nat) (e : ImplId) :
    childOccurs (setRc s d k) e = childOccurs s e := by
  unfold setRc
  cases h : s.datas[d]? with
  | none => rfl
  | some r =>
    show ((s.datas.set d (HRec.mk k r.val)).map
        (fun r2 => (childIds r2.val).count e)).sum
      = (s.datas.map (fun r2 => (childIds r2.val).count e)).sum
    exact sum_map_set_same _ s.datas d r (HRec.mk k r.val) h rfl

theorem childOccurs_bumpRC (s : Store) (d : DataId) (e : ImplId) :
    childOccurs (bumpRC s d) e = childOccurs s e := childOccurs_setRc s d _ e

theorem childOccurs_decRC (s : Store) (d : DataId) (e : ImplId) :
    childOccurs (decRC s d) e = childOccurs s e := childOccurs_setRc s d _ e

theorem childOccurs_setDataVal_exchange (s : Store) (d : DataId) (n : HNode) (r : HRec)
    (h : s.datas[d]? = some r) (e : ImplId) :
    childOccurs (setDataVal s d n) e + (childIds r.val).count e
      = childOccurs s e + (childIds n).count e := by
  unfold setDataVal
  rw [h]
  show ((s.datas.set d (HRec.mk r.rc n)).map
      (fun r2 => (childIds r2.val).count e)).sum + (childIds r.val).count e
    = (s.datas.map (fun r2 => (childIds r2.val).count e)).sum + (childIds n).count e
  exact sum_map_set_exchange _ s.datas d r (HRec.mk r.rc n) h

theorem childOccurs_allocData (s : Store) (r : HRec) (e : ImplId) :
    childOccurs (allocData s r).2 e = childOccurs s e + (childIds r.val).count e := by
  simp [childOccurs, allocData]

theorem childOccurs_allocImpl (s : Store) (d : DataId) (e : ImplId) :
    childOccurs (allocImpl s d).2 e = childOccurs s e := rfl

theorem closed_data_lt (s : Store) (hcl : Closed s) (i : ImplId) (d : DataId)
    (h : implData s i = some d) : d < s.datas.length := by
  rw [implData_eq_some] at h
  obtain ⟨hlt, hget⟩ := List.getElem?_eq_some_iff.mp h
  exact hcl.1 (some d) (hget ▸ List.getElem_mem hlt) d rfl

theorem dataVal_eq_some_rec (s : Store) (d : DataId) (n : HNode) :
    dataVal s d = some n ↔ ∃ r, s.datas[d]? = some r ∧ r.val = n := by
  unfold dataVal
  cases h : s.datas[d]? with
  | none => simp
  | some r => simp

theorem closed_dataVal_some (s : Store) (hcl : Closed s) (i : ImplId) (d : DataId)
    (h : implData s i = some d) : ∃ n, dataVal s d = some n := by
  have hlt := closed_data_lt s hcl i d h
  cases hr : s.datas[d]? with
  | none =>
    rw [List.getElem?_eq_none_iff] at hr
    exact absurd hlt (Nat.not_lt.mpr hr)
  | some r => exact ⟨r.val, by simp [dataVal, hr]⟩

theorem closed_child_lt (s : Store) (hcl : Closed s) (d : DataId) (n : HNode)
    (h : dataVal s d = some n) : ∀ e ∈ childIds n, e < s.impls.length := by
  rw [dataVal_eq_some_rec] at h
  obtain ⟨r, hr, hv⟩ := h
  intro e he
  exact hcl.2 r ((List.getElem?_eq_some_iff.mp hr).2 ▸
    List.getElem_mem (List.getElem?_eq_some_iff.mp hr).1) e (hv ▸ he)

theorem childOccurs_zero_of_ge (s : Store) (hcl : Closed s) (e : ImplId)
    (h : s.impls.length ≤ e) : childOccurs s e = 0 := by
  unfold childOccurs
  rw [List.sum_eq_zero]
  intro x hx
  rw [List.mem_map] at hx
  obtain ⟨r, hr, hrx⟩ := hx
  subst hrx
  simp only [List.count_eq_zero]
  intro hc
  exact absurd (hcl.2 r hr e hc) (Nat.not_lt.mpr h)

end Impl
end CppJson

namespace CppJson
namespace Impl

/-! ### Reachability and agreement -/

theorem reach_cases {s : Store} {w i : ImplId} (h : ReachI s w i) :
    i = w ∨ ∃ b d n, ReachI s w b ∧ implData s b = some d ∧ dataVal s d = some n
      ∧ i ∈ childIds n := by
  cases h with
  | refl => exact Or.inl rfl
  | step hb hd hn he => exact Or.inr ⟨_, _, _, hb, hd, hn, he⟩

theorem childOccurs_pos_of_mem (s : Store) (d : DataId) (n : HNode) (e : ImplId)
    (hn : dataVal s d = some n) (he : e ∈ childIds n) : 1 ≤ childOccurs s e := by
  obtain ⟨r, hr, hv⟩ := (dataVal_eq_some_rec s d n).mp hn
  obtain ⟨hlt, hget⟩ := List.getElem?_eq_some_iff.mp hr
  have hmem : r ∈ s.datas := hget ▸ List.getElem_mem hlt
  have h1 : 1 ≤ (childIds r.val).count e := by
    rw [Nat.one_le_iff_ne_zero]
    intro hc
    rw [List.count_eq_zero] at hc
    exact hc (hv ▸ he)
  have h2 : (childIds r.val).count e ≤ childOccurs s e :=
    List.le_sum_of_mem (List.mem_map_of_mem _ hmem)
  omega

theorem reach_bounded (s : Store) (w i : ImplId) (hcl : Closed s) (h : ReachI s w i) :
    i = w ∨ i < s.impls.length := by
  rcases reach_cases h with h | ⟨b, d, n, _, hd, hn, he⟩
  · exact Or.inl h
  · exact Or.inr (closed_child_lt s hcl d n hn i he)

theorem agree_refl (s : Store) (w : ImplId) : Agree s s w :=
  fun i _ => ⟨rfl, fun _ _ => rfl⟩

theorem agree_reach (s s2 : Store) (w : ImplId) (h : Agree s s2 w) :
    ∀ i, ReachI s w i → ReachI s2 w i := by
  intro i hi
  induction hi with
  | refl => exact ReachI.refl
  | @step b d n e hb hd hn he ih =>
    refine ReachI.step (d := d) (n := n) ih ?_ ?_ he
    · rw [(h _ hb).1]
      exact hd
    · rw [(h _ hb).2 _ hd]
      exact hn

theorem agree_reach_rev (s s2 : Store) (w : ImplId) (h : Agree s s2 w) :
    ∀ i, ReachI s2 w i → ReachI s w i := by
  intro i hi
  induction hi with
  | refl => exact ReachI.refl
  | @step b d n e hb hd hn he ih =>
    have h1 := (h _ ih).1
    have hd0 : implData s b = some d := by rw [← h1]; exact hd
    have h2 := (h _ ih).2 d hd0
    exact ReachI.step (d := d) (n := n) ih hd0 (by rw [← h2]; exact hn) he

theorem agree_trans (s s2 s3 : Store) (w : ImplId) (h12 : Agree s s2 w)
    (h23 : Agree s2 s3 w) : Agree s s3 w := by
  intro i hi
  have hi2 := agree_reach s s2 w h12 i hi
  obtain ⟨e1, f1⟩ := h12 i hi
  obtain ⟨e2, f2⟩ := h23 i hi2
  refine ⟨by rw [e2, e1], fun d hd => ?_⟩
  have hd2 : implData s2 i = some d := by rw [e1]; exact hd
  rw [f2 d hd2, f1 d hd]

theorem optMapM_congr {α β : Type} (f g : α → Option β) (l : List α)
    (h : ∀ a ∈ l, f a = g a) : l.mapM f = l.mapM g := by
  induction l with
  | nil => rfl
  | cons x t ih =>
    simp only [List.mapM_cons]
    rw [h x (by simp), ih (fun a ha => h a (by simp [ha]))]

theorem readback_agree (s s2 : Store) (w : ImplId) (h : Agree s s2 w) :
    ∀ (fuel : Nat) (i : ImplId), ReachI s w i → readback s2 fuel i = readback s fuel i := by
  intro fuel
  induction fuel with
  | zero => intro i _; rfl
  | succ fuel ih =>
    intro i hi
    obtain ⟨e1, f1⟩ := h i hi
    simp only [readback]
    rw [e1]
    cases hd : implData s i with
    | none => rfl
    | some d =>
      dsimp only
      rw [f1 d hd]
      cases hn : dataVal s d with
      | none => rfl
      | some n =>
        cases n with
        | hNull => rfl
        | hBool b => rfl
        | hNum m e => rfl
        | hStr t => rfl
        | hArr es =>
          have hc : es.mapM (readback s2 fuel) = es.mapM (readback s fuel) :=
            optMapM_congr _ _ es (fun e he =>
              ih e (ReachI.step hi hd hn (by simp [childIds, he])))
          simp only [hc]
        | hObj kvs =>
          have hc : kvs.mapM (fun kv => (readback s2 fuel kv.2).map (fun w2 => (kv.1, w2)))
              = kvs.mapM (fun kv => (readback s fuel kv.2).map (fun w2 => (kv.1, w2))) :=
            optMapM_congr _ _ kvs (fun kv hkv => by
              rw [ih kv.2 (ReachI.step hi hd hn
                (by simp only [childIds]; exact List.mem_map_of_mem _ hkv))])
          simp only [hc]

theorem excl_of_rc_one (s : Store) (u : ImplId) (d : DataId)
    (hcl : Closed s) (hrc : RCok s) (hu : implData s u = some d) (h1 : rcOf s d ≤ 1) :
    ∀ i, i ≠ u → implData s i ≠ some d := by
  intro i hiu hcontra
  have hd : d < s.datas.length := closed_data_lt s hcl u d hu
  have h2 : 2 ≤ refCount s d := by
    refine countP_two (fun x => x == some d) s.impls u i (some d) (some d)
      (fun hc => hiu hc.symm) ?_ ?_ (by simp) (by simp)
    · exact (implData_eq_some s u d).mp hu
    · exact (implData_eq_some s i d).mp hcontra
  have := hrc d hd
  omega

theorem reach_not_child_excl (s : Store) (w u : ImplId) (d : DataId) (n : HNode)
    (hcl : Closed s) (hoo : OwnOnce s) (hco : childOccurs s w = 0)
    (hu : implData s u = some d) (hex : ∀ i, i ≠ u → implData s i ≠ some d)
    (hnr : ¬ ReachI s w u) (hn : dataVal s d = some n) :
    ∀ e ∈ childIds n, ¬ ReachI s w e := by
  intro e he hre
  rcases reach_cases hre with heq | ⟨b, db, nb, hrb, hdb, hnb, heb⟩
  · subst heq
    have := childOccurs_pos_of_mem s d n e hn he
    omega
  · have hbu : b ≠ u := fun hc => hnr (hc ▸ hrb)
    have hdbd : db ≠ d := fun hc => hex b hbu (hc ▸ hdb)
    obtain ⟨rd, hrd, hvd⟩ := (dataVal_eq_some_rec s d n).mp hn
    obtain ⟨rdb, hrdb, hvdb⟩ := (dataVal_eq_some_rec s db nb).mp hnb
    have h2 : 2 ≤ childOccurs s e := by
      refine sum_map_two (fun r => (childIds r.val).count e) s.datas d db rd rdb
        (fun hc => hdbd hc.symm) hrd hrdb ?_ ?_
      · rw [Nat.one_le_iff_ne_zero]
        intro hc
        rw [List.count_eq_zero] at hc
        exact hc (hvd ▸ he)
      · rw [Nat.one_le_iff_ne_zero]
        intro hc
        rw [List.count_eq_zero] at hc
        exact hc (hvdb ▸ heb)
    have helt : e < s.impls.length := closed_child_lt s hcl d n hn e he
    have := hoo e helt
    omega

end Impl
end CppJson

namespace CppJson
namespace Impl

/-! ### Allocation and sharing specifications -/

theorem implData_none_of_ge (s : Store) (i : ImplId) (h : s.impls.length ≤ i) :
    implData s i = none := by
  simp [implData, List.getElem?_eq_none_iff.mpr h]

theorem refCount_zero_of_ge (s : Store) (hcl : Closed s) (d : DataId)
    (h : s.datas.length ≤ d) : refCount s d = 0 := by
  unfold refCount
  rw [List.countP_eq_zero]
  intro o ho
  simp only [beq_iff_eq]
  intro hc
  subst hc
  exact absurd (hcl.1 (some d) ho d rfl) (Nat.not_lt.mpr h)

theorem grows_refl (s : Store) : Grows s s :=
  ⟨le_refl _, le_refl _, fun _ _ => rfl, fun _ _ => rfl, fun _ => rfl⟩

theorem grows_trans {s s2 s3 : Store} (h1 : Grows s s2) (h2 : Grows s2 s3) :
    Grows s s3 := by
  obtain ⟨a1, b1, c1, d1, e1⟩ := h1
  obtain ⟨a2, b2, c2, d2, e2⟩ := h2
  exact ⟨le_trans a1 a2, le_trans b1 b2,
    fun j hj => by rw [c2 j (by omega), c1 j hj],
    fun d hd => by rw [d2 d (by omega), d1 d hd],
    fun e => by rw [e2 e, e1 e]⟩

theorem newImpl_spec (s : Store) (hInv : InvW s) :
    (newImpl s).1 = s.impls.length ∧
    (newImpl s).2.impls.length = s.impls.length + 1 ∧
    (newImpl s).2.datas.length = s.datas.length + 1 ∧
    Grows s (newImpl s).2 ∧
    implData (newImpl s).2 s.impls.length = some s.datas.length ∧
    rcOf (newImpl s).2 s.datas.length = 1 ∧
    (∀ d2, d2 ≠ s.datas.length → rcOf (newImpl s).2 d2 = rcOf s d2) ∧
    refCount (newImpl s).2 s.datas.length = 1 ∧
    (∀ d2, d2 ≠ s.datas.length → refCount (newImpl s).2 d2 = refCount s d2) ∧
    InvW (newImpl s).2 := by
  obtain ⟨hcl, hrc, hoo⟩ := hInv
  have h1 : (newImpl s).1 = s.impls.length := rfl
  have hil : (newImpl s).2.impls.length = s.impls.length + 1 := by
    simp [newImpl, allocData, allocImpl]
  have hdl : (newImpl s).2.datas.length = s.datas.length + 1 := by
    simp [newImpl, allocData, allocImpl]
  have himpl : ∀ j, j < s.impls.length → implData (newImpl s).2 j = implData s j := by
    intro j hj
    show implData (allocImpl (allocData s _).2 _).2 j = _
    rw [implData_allocImpl_lt _ _ j (by simpa [allocData] using hj), implData_allocData]
  have hdata : ∀ d, d < s.datas.length → dataVal (newImpl s).2 d = dataVal s d := by
    intro d hd
    show dataVal (allocImpl (allocData s _).2 _).2 d = _
    rw [dataVal_allocImpl, dataVal_allocData_lt _ _ d hd]
  have hco : ∀ e, childOccurs (newImpl s).2 e = childOccurs s e := by
    intro e
    show childOccurs (allocImpl (allocData s _).2 _).2 e = _
    rw [childOccurs_allocImpl, childOccurs_allocData]
    simp [childIds]
  have hnew : implData (newImpl s).2 s.impls.length = some s.datas.length := by
    show implData (allocImpl (allocData s _).2 _).2 s.impls.length = _
    have : s.impls.length = (allocData s (HRec.mk 1 HNode.hNull)).2.impls.length := rfl
    rw [this, implData_allocImpl_self]
    rfl
  have hrc1 : rcOf (newImpl s).2 s.datas.length = 1 := by
    show rcOf (allocImpl (allocData s _).2 _).2 s.datas.length = 1
    rw [rcOf_allocImpl, rcOf_allocData_self]
  have hrco : ∀ d2, d2 ≠ s.datas.length → rcOf (newImpl s).2 d2 = rcOf s d2 := by
    intro d2 hne
    show rcOf (allocImpl (allocData s _).2 _).2 d2 = _
    rw [rcOf_allocImpl]
    by_cases h : d2 < s.datas.length
    · exact rcOf_allocData_lt _ _ d2 h
    · have hge : s.datas.length + 1 ≤ d2 := by omega
      unfold rcOf
      rw [List.getElem?_eq_none_iff.mpr (by simp [allocData]; omega),
        List.getElem?_eq_none_iff.mpr (by omega)]
  have hrf1 : refCount (newImpl s).2 s.datas.length = 1 := by
    show refCount (allocImpl (allocData s _).2 _).2 s.datas.length = 1
    rw [refCount_allocImpl]
    have h0 : refCount (allocData s (HRec.mk 1 HNode.hNull)).2 s.datas.length
        = refCount s s.datas.length := rfl
    rw [h0, refCount_zero_of_ge s hcl _ (le_refl _)]
    simp [allocData]
  have hrfo : ∀ d2, d2 ≠ s.datas.length → refCount (newImpl s).2 d2 = refCount s d2 := by
    intro d2 hne
    show refCount (allocImpl (allocData s _).2 _).2 d2 = _
    rw [refCount_allocImpl]
    have h0 : refCount (allocData s (HRec.mk 1 HNode.hNull)).2 d2 = refCount s d2 := rfl
    rw [h0]
    simp [allocData, Ne.symm hne]
  refine ⟨h1, hil, hdl, ⟨by omega, by omega, himpl, hdata, hco⟩, hnew, hrc1, hrco,
    hrf1, hrfo, ?_, ?_, ?_⟩
  · -- Closed
    constructor
    · intro o ho d hd
      subst hd
      rw [hdl]
      have himpls : (newImpl s).2.impls = s.impls ++ [some s.datas.length] := rfl
      rw [himpls] at ho
      rcases List.mem_append.mp ho with ho | ho
      · exact Nat.lt_succ_of_lt (hcl.1 _ ho d rfl)
      · simp only [List.mem_singleton, Option.some_inj] at ho
        exact ho ▸ Nat.lt_succ_self _
    · intro r hr e he
      rw [hil]
      have hdatas : (newImpl s).2.datas = s.datas ++ [HRec.mk 1 HNode.hNull] := rfl
      rw [hdatas] at hr
      rcases List.mem_append.mp hr with hr | hr
      · exact Nat.lt_succ_of_lt (hcl.2 r hr e he)
      · simp only [List.mem_singleton] at hr
        subst hr
        simp [childIds] at he
  · -- RCok
    intro d hd
    by_cases h : d = s.datas.length
    · subst h
      rw [hrc1, hrf1]
    · rw [hrco d h, hrfo d h]
      have hlt : d < s.datas.length := by
        rw [hdl] at hd
        omega
      exact hrc d hlt
  · -- OwnOnce
    intro e hel
    rw [hco e]
    by_cases h : e < s.impls.length
    · exact hoo e h
    · rw [childOccurs_zero_of_ge s hcl e (by omega)]
      omega

end Impl
end CppJson

namespace CppJson
namespace Impl

theorem impls_setRc (s : Store) (d : DataId) (k : Nat) : (setRc s d k).impls = s.impls := by
  unfold setRc
  cases h : s.datas[d]? <;> rfl

theorem impls_bumpRC (s : Store) (d : DataId) : (bumpRC s d).impls = s.impls :=
  impls_setRc s d _

theorem impls_decRC (s : Store) (d : DataId) : (decRC s d).impls = s.impls :=
  impls_setRc s d _

theorem datasLen_setRc (s : Store) (d : DataId) (k : Nat) :
    (setRc s d k).datas.length = s.datas.length := by
  unfold setRc
  cases h : s.datas[d]? <;> simp [List.length_set]

theorem datasLen_bumpRC (s : Store) (d : DataId) :
    (bumpRC s d).datas.length = s.datas.length := datasLen_setRc s d _

theorem datasLen_decRC (s : Store) (d : DataId) :
    (decRC s d).datas.length = s.datas.length := datasLen_setRc s d _

theorem impls_setDataVal (s : Store) (d : DataId) (n : HNode) :
    (setDataVal s d n).impls = s.impls := by
  unfold setDataVal
  cases h : s.datas[d]? <;> rfl

theorem datasLen_setDataVal (s : Store) (d : DataId) (n : HNode) :
    (setDataVal s d n).datas.length = s.datas.length := by
  unfold setDataVal
  cases h : s.datas[d]? <;> simp [List.length_set]

theorem refCount_bumpRC (s : Store) (d : DataId) (d2 : DataId) :
    refCount (bumpRC s d) d2 = refCount s d2 := refCount_setRc s d _ d2

theorem refCount_decRC (s : Store) (d : DataId) (d2 : DataId) :
    refCount (decRC s d) d2 = refCount s d2 := refCount_setRc s d _ d2

theorem rcOf_bumpRC_self (s : Store) (d : DataId) (h : d < s.datas.length) :
    rcOf (bumpRC s d) d = rcOf s d + 1 := rcOf_setRc_self s d _ h

theorem rcOf_bumpRC_ne (s : Store) (d : DataId) (d2 : DataId) (h : d2 ≠ d) :
    rcOf (bumpRC s d) d2 = rcOf s d2 := rcOf_setRc_ne s d _ d2 h

theorem rcOf_decRC_self (s : Store) (d : DataId) (h : d < s.datas.length) :
    rcOf (decRC s d) d = rcOf s d - 1 := rcOf_setRc_self s d _ h

theorem rcOf_decRC_ne (s : Store) (d : DataId) (d2 : DataId) (h : d2 ≠ d) :
    rcOf (decRC s d) d2 = rcOf s d2 := rcOf_setRc_ne s d _ d2 h

theorem closed_setRc (s : Store) (d : DataId) (k : Nat) (hcl : Closed s) :
    Closed (setRc s d k) := by
  unfold setRc
  cases h : s.datas[d]? with
  | none => exact hcl
  | some r =>
    constructor
    · intro o ho d2 hd2
      subst hd2
      have h2 : d2 < s.datas.length := hcl.1 (some d2) ho d2 rfl
      simpa using h2
    · intro r2 hr2 e he
      rcases List.mem_or_eq_of_mem_set hr2 with hr2 | hr2
      · exact hcl.2 r2 hr2 e he
      · subst hr2
        obtain ⟨hlt, hget⟩ := List.getElem?_eq_some_iff.mp h
        exact hcl.2 r (hget ▸ List.getElem_mem hlt) e he

theorem copyJson_spec (s : Store) (src : ImplId) (hInv : InvW s) :
    (copyJson s src).1 = s.impls.length ∧
    (copyJson s src).2.impls.length = s.impls.length + 1 ∧
    s.datas.length ≤ (copyJson s src).2.datas.length ∧
    Grows s (copyJson s src).2 ∧
    InvW (copyJson s src).2 := by
  obtain ⟨hn1, hil, hdl, hgrow, hnew, hrc1, hrco, hrf1, hrfo, hInv2⟩ := newImpl_spec s hInv
  obtain ⟨hcl, hrc, hoo⟩ := hInv
  have hcl2 := hInv2.1
  have hrc2 := hInv2.2.1
  have hoo2 := hInv2.2.2
  have hcj : copyJson s src
      = ((newImpl s).1, assignJson (newImpl s).2 (newImpl s).1 src) := rfl
  by_cases hsrc : (newImpl s).1 = src
  · rw [hcj]
    simp only [assignJson, if_pos hsrc]
    exact ⟨hn1, hil, by omega, hgrow, hInv2⟩
  · rw [hcj]
    simp only [assignJson, if_neg hsrc]
    cases himd : implData (newImpl s).2 src with
    | none =>
      simp only [shareData, himd]
      exact ⟨hn1, hil, by omega, hgrow, hInv2⟩
    | some dsrc =>
      have hsrclt : src < s.impls.length := by
        have h1 := lt_of_implData_some _ _ _ himd
        rw [hil] at h1
        exact Nat.lt_of_le_of_ne (Nat.lt_succ_iff.mp h1)
          (fun hc => hsrc (hn1.trans hc.symm))
      have himds : implData s src = some dsrc := by
        rw [← hgrow.2.2.1 src hsrclt]
        exact himd
      have hdsrclt : dsrc < s.datas.length := closed_data_lt s hcl src dsrc himds
      have hdold : implData (newImpl s).2 (newImpl s).1 = some s.datas.length := by
        rw [hn1]
        exact hnew
      have hshare : shareData (newImpl s).2 (newImpl s).1 src
          = decRC (bumpRC (setImpl (newImpl s).2 (newImpl s).1 (some dsrc)) dsrc)
              s.datas.length := by
        simp only [shareData, himd, hdold]
      rw [hshare]
      have hn1lt : (newImpl s).1 < (newImpl s).2.impls.length := by
        rw [hn1, hil]
        exact Nat.lt_succ_self _
      have hdne : dsrc ≠ s.datas.length := Nat.ne_of_lt hdsrclt
      -- reads after the three writes
      have himpl3 : ∀ j, j < s.impls.length →
          implData (decRC (bumpRC (setImpl (newImpl s).2 (newImpl s).1 (some dsrc)) dsrc)
            s.datas.length) j = implData s j := by
        intro j hj
        rw [implData_decRC, implData_bumpRC,
          implData_setImpl_ne _ _ _ j (by rw [hn1]; exact Nat.ne_of_lt hj),
          hgrow.2.2.1 j hj]
      have himpl3u : implData (decRC (bumpRC (setImpl (newImpl s).2 (newImpl s).1
          (some dsrc)) dsrc) s.datas.length) (newImpl s).1 = some dsrc := by
        rw [implData_decRC, implData_bumpRC, implData_setImpl_self _ _ _ hn1lt]
      have hdata3 : ∀ d2, dataVal (decRC (bumpRC (setImpl (newImpl s).2 (newImpl s).1
          (some dsrc)) dsrc) s.datas.length) d2 = dataVal (newImpl s).2 d2 := by
        intro d2
        rw [dataVal_decRC, dataVal_bumpRC, dataVal_setImpl]
      have hco3 : ∀ e, childOccurs (decRC (bumpRC (setImpl (newImpl s).2 (newImpl s).1
          (some dsrc)) dsrc) s.datas.length) e = childOccurs s e := by
        intro e
        rw [childOccurs_decRC, childOccurs_bumpRC, childOccurs_setImpl, hgrow.2.2.2.2 e]
      have hilen3 : (decRC (bumpRC (setImpl (newImpl s).2 (newImpl s).1 (some dsrc)) dsrc)
          s.datas.length).impls.length = s.impls.length + 1 := by
        rw [impls_decRC, impls_bumpRC]
        show ((newImpl s).2.impls.set (newImpl s).1 (some dsrc)).length = _
        rw [List.length_set, hil]
      have hdlen3 : (decRC (bumpRC (setImpl (newImpl s).2 (newImpl s).1 (some dsrc)) dsrc)
          s.datas.length).datas.length = (newImpl s).2.datas.length := by
        rw [datasLen_decRC, datasLen_bumpRC]
        rfl
      have hS3d : (decRC (bumpRC (setImpl (newImpl s).2 (newImpl s).1 (some dsrc)) dsrc)
          s.datas.length).datas.length = s.datas.length + 1 := by
        rw [hdlen3, hdl]
      have hA : Closed (setImpl (newImpl s).2 (newImpl s).1 (some dsrc)) := by
        constructor
        · intro o ho d2 hd2
          subst hd2
          rcases List.mem_or_eq_of_mem_set ho with ho2 | ho2
          · have h2 := hcl2.1 (some d2) ho2 d2 rfl
            simpa [setImpl] using h2
          · simp only [Option.some_inj] at ho2
            subst ho2
            have h2 : d2 < (newImpl s).2.datas.length := by
              rw [hdl]
              exact Nat.lt_succ_of_lt hdsrclt
            simpa [setImpl] using h2
        · intro r hr e he
          have h2 := hcl2.2 r hr e he
          simpa [setImpl] using h2
      have hAdlen : (setImpl (newImpl s).2 (newImpl s).1 (some dsrc)).datas.length
          = s.datas.length + 1 := by
        show (newImpl s).2.datas.length = _
        exact hdl
      have hBdlen : (bumpRC (setImpl (newImpl s).2 (newImpl s).1 (some dsrc))
          dsrc).datas.length = s.datas.length + 1 := by
        rw [datasLen_bumpRC]
        exact hAdlen
      have himplsu : (newImpl s).2.impls[(newImpl s).1]? = some (some s.datas.length) :=
        (implData_eq_some _ _ _).mp hdold
      have hrfS3 : ∀ d2, refCount (decRC (bumpRC (setImpl (newImpl s).2 (newImpl s).1
          (some dsrc)) dsrc) s.datas.length) d2
          = refCount (setImpl (newImpl s).2 (newImpl s).1 (some dsrc)) d2 := by
        intro d2
        rw [refCount_decRC, refCount_bumpRC]
      refine ⟨hn1, hilen3, by rw [hS3d]; exact Nat.le_succ _,
        ⟨by rw [hilen3]; exact Nat.le_succ _, by rw [hS3d]; exact Nat.le_succ _,
         himpl3, (fun d2 hd2 => by rw [hdata3 d2, hgrow.2.2.2.1 d2 hd2]), hco3⟩,
        ?_, ?_, ?_⟩
      · exact closed_setRc _ s.datas.length _ (closed_setRc _ dsrc _ hA)
      · intro d2 hd2
        rw [hrfS3 d2]
        have hex := refCount_setImpl_exchange (newImpl s).2 (newImpl s).1
          (some dsrc) (some s.datas.length) himplsu d2
        by_cases hc1 : d2 = dsrc
        · subst hc1
          have hne1 : ¬ ((some s.datas.length : Option DataId) = some d2) :=
            fun hcc => hdne (Option.some_inj.mp hcc).symm
          rw [if_neg hne1, if_pos rfl] at hex
          have hrcv : rcOf (decRC (bumpRC (setImpl (newImpl s).2 (newImpl s).1
              (some d2)) d2) s.datas.length) d2 = rcOf s d2 + 1 := by
            rw [rcOf_decRC_ne _ _ _ hdne,
              rcOf_bumpRC_self _ _ (by rw [hAdlen]; exact Nat.lt_succ_of_lt hdsrclt),
              rcOf_setImpl, hrco d2 hdne]
          rw [hrcv]
          have h1 := hrfo d2 hdne
          have h2 := hrc d2 hdsrclt
          omega
        · by_cases hc2 : d2 = s.datas.length
          · subst hc2
            have hne2 : ¬ ((some dsrc : Option DataId) = some s.datas.length) :=
              fun hcc => hdne (Option.some_inj.mp hcc)
            rw [if_pos rfl, if_neg hne2] at hex
            rw [hrf1] at hex
            have hrcv : rcOf (decRC (bumpRC (setImpl (newImpl s).2 (newImpl s).1
                (some dsrc)) dsrc) s.datas.length) s.datas.length
                = rcOf (bumpRC (setImpl (newImpl s).2 (newImpl s).1 (some dsrc)) dsrc)
                    s.datas.length - 1 := by
              rw [rcOf_decRC_self _ _ (by rw [hBdlen]; exact Nat.lt_succ_self _)]
            rw [hrcv, rcOf_bumpRC_ne _ _ _ (fun hcc => hdne hcc.symm), rcOf_setImpl, hrc1]
            omega
          · have hne1 : ¬ ((some s.datas.length : Option DataId) = some d2) :=
              fun hcc => hc2 (Option.some_inj.mp hcc).symm
            have hne2 : ¬ ((some dsrc : Option DataId) = some d2) :=
              fun hcc => hc1 (Option.some_inj.mp hcc).symm
            rw [if_neg hne1, if_neg hne2] at hex
            have hd2lt : d2 < s.datas.length := by
              rw [hS3d] at hd2
              exact Nat.lt_of_le_of_ne (Nat.lt_succ_iff.mp hd2) hc2
            have hrcv : rcOf (decRC (bumpRC (setImpl (newImpl s).2 (newImpl s).1
                (some dsrc)) dsrc) s.datas.length) d2 = rcOf s d2 := by
              rw [rcOf_decRC_ne _ _ _ hc2, rcOf_bumpRC_ne _ _ _ hc1, rcOf_setImpl,
                hrco d2 hc2]
            rw [hrcv]
            have h1 := hrfo d2 hc2
            have h2 := hrc d2 hd2lt
            omega
      · intro e hel
        rw [hco3 e]
        by_cases h : e < s.impls.length
        · exact hoo e h
        · rw [childOccurs_zero_of_ge s hcl e (Nat.le_of_not_lt h)]
          exact Nat.zero_le _

end Impl
end CppJson

namespace CppJson
namespace Impl

theorem cloneChildList_spec : ∀ (es : List ImplId) (s : Store), InvW s →
    Grows s (cloneChildList s es).2 ∧ InvW (cloneChildList s es).2 ∧
    (∀ x ∈ (cloneChildList s es).1,
      s.impls.length ≤ x ∧ x < (cloneChildList s es).2.impls.length) ∧
    (cloneChildList s es).1.Nodup := by
  intro es
  induction es with
  | nil =>
    intro s hInv
    exact ⟨grows_refl s, hInv, by simp [cloneChildList], by simp [cloneChildList]⟩
  | cons e t ih =>
    intro s hInv
    obtain ⟨hc1, hcl2, hdl2, hgc, hIc⟩ := copyJson_spec s e hInv
    obtain ⟨hgr, hIr, hbr, hnr⟩ := ih (copyJson s e).2 hIc
    have heq : cloneChildList s (e :: t)
        = ((copyJson s e).1 :: (cloneChildList (copyJson s e).2 t).1,
           (cloneChildList (copyJson s e).2 t).2) := rfl
    rw [heq]
    refine ⟨grows_trans hgc hgr, hIr, ?_, ?_⟩
    · intro x hx
      rcases List.mem_cons.mp hx with hx | hx
      · subst hx
        constructor
        · rw [hc1]
        · have h1 : (copyJson s e).2.impls.length ≤
              (cloneChildList (copyJson s e).2 t).2.impls.length := hgr.1
          have h0 : s.impls.length < (copyJson s e).2.impls.length := by
            rw [hcl2]
            exact Nat.lt_succ_self _
          rw [hc1]
          exact Nat.lt_of_lt_of_le h0 h1
      · have hb2 := hbr x hx
        have h2 : s.impls.length ≤ (copyJson s e).2.impls.length := hgc.1
        exact ⟨le_trans h2 hb2.1, hb2.2⟩
    · rw [List.nodup_cons]
      refine ⟨?_, hnr⟩
      intro hmem
      have hb3 := (hbr _ hmem).1
      rw [hc1, hcl2] at hb3
      exact absurd hb3 (Nat.not_succ_le_self _)

theorem cloneEntryList_spec : ∀ (kvs : List (Bytes × ImplId)) (s : Store), InvW s →
    Grows s (cloneEntryList s kvs).2 ∧ InvW (cloneEntryList s kvs).2 ∧
    (∀ x ∈ (cloneEntryList s kvs).1.map Prod.snd,
      s.impls.length ≤ x ∧ x < (cloneEntryList s kvs).2.impls.length) ∧
    ((cloneEntryList s kvs).1.map Prod.snd).Nodup := by
  intro kvs
  induction kvs with
  | nil =>
    intro s hInv
    exact ⟨grows_refl s, hInv, by simp [cloneEntryList], by simp [cloneEntryList]⟩
  | cons kv t ih =>
    intro s hInv
    obtain ⟨hc1, hcl2, hdl2, hgc, hIc⟩ := copyJson_spec s kv.2 hInv
    obtain ⟨hgr, hIr, hbr, hnr⟩ := ih (copyJson s kv.2).2 hIc
    have heq : cloneEntryList s (kv :: t)
        = ((kv.1, (copyJson s kv.2).1) :: (cloneEntryList (copyJson s kv.2).2 t).1,
           (cloneEntryList (copyJson s kv.2).2 t).2) := rfl
    rw [heq]
    refine ⟨grows_trans hgc hgr, hIr, ?_, ?_⟩
    · intro x hx
      simp only [List.map_cons, List.mem_cons] at hx
      rcases hx with hx | hx
    -- head: x = (copyJson s kv.2).1
      · subst hx
        constructor
        · rw [hc1]
        · have h1 : (copyJson s kv.2).2.impls.length ≤
              (cloneEntryList (copyJson s kv.2).2 t).2.impls.length := hgr.1
          have h0 : s.impls.length < (copyJson s kv.2).2.impls.length := by
            rw [hcl2]
            exact Nat.lt_succ_self _
          rw [hc1]
          exact Nat.lt_of_lt_of_le h0 h1
      · have hb2 := hbr x hx
        have h2 : s.impls.length ≤ (copyJson s kv.2).2.impls.length := hgc.1
        exact ⟨le_trans h2 hb2.1, hb2.2⟩
    · simp only [List.map_cons, List.nodup_cons]
      refine ⟨?_, hnr⟩
      intro hmem
      have hb3 := (hbr _ hmem).1
      rw [hc1, hcl2] at hb3
      exact absurd hb3 (Nat.not_succ_le_self _)

theorem cloneNode_spec (n : HNode) (s : Store) (hInv : InvW s) :
    Grows s (cloneNode s n).2 ∧ InvW (cloneNode s n).2 ∧
    (∀ x ∈ childIds (cloneNode s n).1,
      s.impls.length ≤ x ∧ x < (cloneNode s n).2.impls.length) ∧
    (childIds (cloneNode s n).1).Nodup := by
  cases n with
  | hArr es =>
    obtain ⟨hg, hI, hb, hn⟩ := cloneChildList_spec es s hInv
    exact ⟨hg, hI, hb, hn⟩
  | hObj kvs =>
    obtain ⟨hg, hI, hb, hn⟩ := cloneEntryList_spec kvs s hInv
    exact ⟨hg, hI, hb, hn⟩
  | hNull =>
    exact ⟨grows_refl s, hInv, by simp [cloneNode, childIds], by simp [cloneNode, childIds]⟩
  | hBool b =>
    exact ⟨grows_refl s, hInv, by simp [cloneNode, childIds], by simp [cloneNode, childIds]⟩
  | hNum m e =>
    exact ⟨grows_refl s, hInv, by simp [cloneNode, childIds], by simp [cloneNode, childIds]⟩
  | hStr t =>
    exact ⟨grows_refl s, hInv, by simp [cloneNode, childIds], by simp [cloneNode, childIds]⟩

end Impl
end CppJson

namespace CppJson
namespace Impl

theorem EnsureUnique_spec (s : Store) (u : ImplId) (hInv : InvW s) :
    (∀ j, j ≠ u → j < s.impls.length →
      implData (EnsureUnique s u) j = implData s j) ∧
    (∀ d, d < s.datas.length → dataVal (EnsureUnique s u) d = dataVal s d) ∧
    s.impls.length ≤ (EnsureUnique s u).impls.length ∧
    s.datas.length ≤ (EnsureUnique s u).datas.length ∧
    InvW (EnsureUnique s u) ∧
    (∀ e, e < s.impls.length → childOccurs (EnsureUnique s u) e = childOccurs s e) ∧
    (∀ d2, implData (EnsureUnique s u) u = some d2 →
      ∀ i, i ≠ u → implData (EnsureUnique s u) i ≠ some d2) := by
  obtain ⟨hcl, hrc, hoo⟩ := hInv
  cases himd : implData s u with
  | none =>
    have heq : EnsureUnique s u = s := by
      simp only [EnsureUnique, himd]
    rw [heq]
    exact ⟨fun _ _ _ => rfl, fun _ _ => rfl, le_refl _, le_refl _, ⟨hcl, hrc, hoo⟩,
      fun _ _ => rfl, fun d2 hd2 => by rw [himd] at hd2; exact absurd hd2 (by simp)⟩
  | some d =>
    by_cases hshared : rcOf s d > 1
    · obtain ⟨n, hdn⟩ := closed_dataVal_some s hcl u d himd
      obtain ⟨hgc, hIc, hbc, hnc⟩ := cloneNode_spec n s ⟨hcl, hrc, hoo⟩
      obtain ⟨hclc, hrcc, hooc⟩ := hIc
      have hulen : u < s.impls.length := lt_of_implData_some s u d himd
      have hdlt : d < s.datas.length := closed_data_lt s hcl u d himd
      have heq : EnsureUnique s u
          = decRC (setImpl (allocData (cloneNode s n).2
              (HRec.mk 1 (cloneNode s n).1)).2 u
              (some (allocData (cloneNode s n).2 (HRec.mk 1 (cloneNode s n).1)).1)) d := by
        simp only [EnsureUnique, himd, hdn]
        rw [if_pos hshared]
      rw [heq]
      have hA2i : (allocData (cloneNode s n).2 (HRec.mk 1 (cloneNode s n).1)).2.impls
          = (cloneNode s n).2.impls := rfl
      have hA2ilen : (allocData (cloneNode s n).2 (HRec.mk 1 (cloneNode s n).1)).2.impls.length
          = (cloneNode s n).2.impls.length := rfl
      have hA2dlen : (allocData (cloneNode s n).2
          (HRec.mk 1 (cloneNode s n).1)).2.datas.length
          = (cloneNode s n).2.datas.length + 1 := by
        simp [allocData]
      have hF : (allocData (cloneNode s n).2 (HRec.mk 1 (cloneNode s n).1)).1
          = (cloneNode s n).2.datas.length := rfl
      have hFge : s.datas.length ≤ (cloneNode s n).2.datas.length := hgc.2.1
      have hdneF : d ≠ (cloneNode s n).2.datas.length := by
        intro hc
        rw [hc] at hdlt
        exact absurd hFge (Nat.not_le.mpr hdlt)
      have hulen2 : u < (cloneNode s n).2.impls.length :=
        Nat.lt_of_lt_of_le hulen hgc.1
      have himdA2 : implData (allocData (cloneNode s n).2
          (HRec.mk 1 (cloneNode s n).1)).2 u = some d := by
        rw [implData_allocData, hgc.2.2.1 u hulen]
        exact himd
      -- (a) impl frame
      have hfa : ∀ j, j ≠ u → j < s.impls.length →
          implData (decRC (setImpl (allocData (cloneNode s n).2
            (HRec.mk 1 (cloneNode s n).1)).2 u
            (some (allocData (cloneNode s n).2 (HRec.mk 1 (cloneNode s n).1)).1)) d) j
          = implData s j := by
        intro j hju hjl
        rw [implData_decRC, implData_setImpl_ne _ _ _ j hju, implData_allocData,
          hgc.2.2.1 j hjl]
      -- (b) data frame
      have hfb : ∀ d2, d2 < s.datas.length →
          dataVal (decRC (setImpl (allocData (cloneNode s n).2
            (HRec.mk 1 (cloneNode s n).1)).2 u
            (some (allocData (cloneNode s n).2 (HRec.mk 1 (cloneNode s n).1)).1)) d) d2
          = dataVal s d2 := by
        intro d2 hd2
        rw [dataVal_decRC, dataVal_setImpl,
          dataVal_allocData_lt _ _ d2 (Nat.lt_of_lt_of_le hd2 hFge),
          hgc.2.2.2.1 d2 hd2]
      -- lengths
      have hlseti : (setImpl (allocData (cloneNode s n).2
          (HRec.mk 1 (cloneNode s n).1)).2 u
          (some (allocData (cloneNode s n).2 (HRec.mk 1 (cloneNode s n).1)).1)).impls.length
          = (cloneNode s n).2.impls.length := by
        show ((allocData (cloneNode s n).2 (HRec.mk 1 (cloneNode s n).1)).2.impls.set u
          _).length = _
        rw [List.length_set, hA2ilen]
      have hlenI : (decRC (setImpl (allocData (cloneNode s n).2
          (HRec.mk 1 (cloneNode s n).1)).2 u
          (some (allocData (cloneNode s n).2
            (HRec.mk 1 (cloneNode s n).1)).1)) d).impls.length
          = (cloneNode s n).2.impls.length := by
        rw [impls_decRC, hlseti]
      have hlenD : (decRC (setImpl (allocData (cloneNode s n).2
          (HRec.mk 1 (cloneNode s n).1)).2 u
          (some (allocData (cloneNode s n).2
            (HRec.mk 1 (cloneNode s n).1)).1)) d).datas.length
          = (cloneNode s n).2.datas.length + 1 := by
        rw [datasLen_decRC]
        show (allocData (cloneNode s n).2 (HRec.mk 1 (cloneNode s n).1)).2.datas.length = _
        exact hA2dlen
      -- (e) childOccurs
      have hce : ∀ e, childOccurs (decRC (setImpl (allocData (cloneNode s n).2
          (HRec.mk 1 (cloneNode s n).1)).2 u
          (some (allocData (cloneNode s n).2 (HRec.mk 1 (cloneNode s n).1)).1)) d) e
          = childOccurs (cloneNode s n).2 e + (childIds (cloneNode s n).1).count e := by
        intro e
        rw [childOccurs_decRC, childOccurs_setImpl, childOccurs_allocData]
      have hceOld : ∀ e, e < s.impls.length →
          childOccurs (decRC (setImpl (allocData (cloneNode s n).2
            (HRec.mk 1 (cloneNode s n).1)).2 u
            (some (allocData (cloneNode s n).2 (HRec.mk 1 (cloneNode s n).1)).1)) d) e
          = childOccurs s e := by
        intro e hel
        rw [hce e, hgc.2.2.2.2 e]
        have hz : (childIds (cloneNode s n).1).count e = 0 := by
          rw [List.count_eq_zero]
          intro hmem
          have := (hbc e hmem).1
          exact absurd hel (Nat.not_lt.mpr this)
        rw [hz]
        rfl
      refine ⟨hfa, hfb, ?_, ?_, ⟨?_, ?_, ?_⟩, hceOld, ?_⟩
      · rw [hlenI]
        exact hgc.1
      · rw [hlenD]
        exact le_trans hFge (Nat.le_succ _)
      · -- Closed
        refine closed_setRc _ d _ ⟨?_, ?_⟩
        · intro o ho d2 hd2
          subst hd2
          rcases List.mem_or_eq_of_mem_set ho with ho2 | ho2
          · have ho3 : (some d2) ∈ (allocData (cloneNode s n).2
                (HRec.mk 1 (cloneNode s n).1)).2.impls := ho2
            rw [hA2i] at ho3
            have h2 := hclc.1 (some d2) ho3 d2 rfl
            show d2 < (setImpl _ _ _).datas.length
            have : (setImpl (allocData (cloneNode s n).2
                (HRec.mk 1 (cloneNode s n).1)).2 u
                (some (allocData (cloneNode s n).2
                  (HRec.mk 1 (cloneNode s n).1)).1)).datas.length
                = (cloneNode s n).2.datas.length + 1 := hA2dlen
            rw [this]
            exact Nat.lt_succ_of_lt h2
          · simp only [Option.some_inj] at ho2
            show d2 < (setImpl _ _ _).datas.length
            have hlen2 : (setImpl (allocData (cloneNode s n).2
                (HRec.mk 1 (cloneNode s n).1)).2 u
                (some (allocData (cloneNode s n).2
                  (HRec.mk 1 (cloneNode s n).1)).1)).datas.length
                = (cloneNode s n).2.datas.length + 1 := hA2dlen
            rw [hlen2, ho2, hF]
            exact Nat.lt_succ_self _
        · intro r hr e he
          have hr2 : r ∈ (cloneNode s n).2.datas ++ [HRec.mk 1 (cloneNode s n).1] := hr
          rcases List.mem_append.mp hr2 with hr3 | hr3
          · have h2 := hclc.2 r hr3 e he
            rw [hlseti]
            exact h2
          · simp only [List.mem_singleton] at hr3
            subst hr3
            have := (hbc e he).2
            rw [hlseti]
            exact this
      · -- RCok
        intro d2 hd2
        rw [refCount_decRC]
        have hex := refCount_setImpl_exchange
          (allocData (cloneNode s n).2 (HRec.mk 1 (cloneNode s n).1)).2 u
          (some (allocData (cloneNode s n).2 (HRec.mk 1 (cloneNode s n).1)).1)
          (some d) ((implData_eq_some _ _ _).mp himdA2) d2
        by_cases hc1 : d2 = (cloneNode s n).2.datas.length
        · have hne1 : ¬ ((some d : Option DataId) = some d2) :=
            fun hcc => hdneF (by rw [← hc1]; exact Option.some_inj.mp hcc)
          have hpos : (some (allocData (cloneNode s n).2
              (HRec.mk 1 (cloneNode s n).1)).1 : Option DataId) = some d2 := by
            rw [hF, hc1]
          rw [if_neg hne1, if_pos hpos] at hex
          have hrf0 : refCount (allocData (cloneNode s n).2
              (HRec.mk 1 (cloneNode s n).1)).2 d2 = 0 := by
            rw [refCount_allocData]
            exact refCount_zero_of_ge _ hclc d2 (by rw [hc1])
          rw [hrf0] at hex
          have hd2d : d2 ≠ d := by
            rw [hc1]
            exact fun hcc => hdneF hcc.symm
          have hrcv : rcOf (decRC (setImpl (allocData (cloneNode s n).2
              (HRec.mk 1 (cloneNode s n).1)).2 u
              (some (allocData (cloneNode s n).2
                (HRec.mk 1 (cloneNode s n).1)).1)) d) d2 = 1 := by
            rw [rcOf_decRC_ne _ _ _ hd2d, rcOf_setImpl, hc1, rcOf_allocData_self]
          rw [hrcv]
          omega
        · by_cases hc2 : d2 = d
          · subst hc2
            have hne2 : ¬ ((some (allocData (cloneNode s n).2
                (HRec.mk 1 (cloneNode s n).1)).1 : Option DataId) = some d2) := by
              rw [hF]
              exact fun hcc => hc1 (Option.some_inj.mp hcc).symm
            rw [if_pos rfl, if_neg hne2] at hex
            have hrfA : refCount (allocData (cloneNode s n).2
                (HRec.mk 1 (cloneNode s n).1)).2 d2 = refCount (cloneNode s n).2 d2 :=
              refCount_allocData _ _ d2
            rw [hrfA] at hex
            have hd2c : d2 < (cloneNode s n).2.datas.length :=
              Nat.lt_of_lt_of_le hdlt hFge
            have hrcv : rcOf (decRC (setImpl (allocData (cloneNode s n).2
                (HRec.mk 1 (cloneNode s n).1)).2 u
                (some (allocData (cloneNode s n).2
                  (HRec.mk 1 (cloneNode s n).1)).1)) d2) d2
                = rcOf (cloneNode s n).2 d2 - 1 := by
              rw [rcOf_decRC_self _ _ (by
                  show d2 < (allocData (cloneNode s n).2
                    (HRec.mk 1 (cloneNode s n).1)).2.datas.length
                  rw [hA2dlen]
                  exact Nat.lt_succ_of_lt hd2c),
                rcOf_setImpl, rcOf_allocData_lt _ _ d2 hd2c]
            rw [hrcv]
            have h2 := hrcc d2 hd2c
            omega
          · have hne1 : ¬ ((some d : Option DataId) = some d2) :=
              fun hcc => hc2 (Option.some_inj.mp hcc).symm
            have hne2 : ¬ ((some (allocData (cloneNode s n).2
                (HRec.mk 1 (cloneNode s n).1)).1 : Option DataId) = some d2) := by
              rw [hF]
              exact fun hcc => hc1 (Option.some_inj.mp hcc).symm
            rw [if_neg hne1, if_neg hne2] at hex
            have hd2lt : d2 < (cloneNode s n).2.datas.length := by
              rw [hlenD] at hd2
              exact Nat.lt_of_le_of_ne (Nat.lt_succ_iff.mp hd2) hc1
            have hrfA : refCount (allocData (cloneNode s n).2
                (HRec.mk 1 (cloneNode s n).1)).2 d2 = refCount (cloneNode s n).2 d2 :=
              refCount_allocData _ _ d2
            rw [hrfA] at hex
            have hrcv : rcOf (decRC (setImpl (allocData (cloneNode s n).2
                (HRec.mk 1 (cloneNode s n).1)).2 u
                (some (allocData (cloneNode s n).2
                  (HRec.mk 1 (cloneNode s n).1)).1)) d) d2
                = rcOf (cloneNode s n).2 d2 := by
              rw [rcOf_decRC_ne _ _ _ hc2, rcOf_setImpl, rcOf_allocData_lt _ _ d2 hd2lt]
            rw [hrcv]
            have h2 := hrcc d2 hd2lt
            omega
      · -- OwnOnce
        intro e hel
        rw [hce e]
        rw [hlenI] at hel
        by_cases h : e < s.impls.length
        · have hz : (childIds (cloneNode s n).1).count e = 0 := by
            rw [List.count_eq_zero]
            intro hmem
            exact absurd h (Nat.not_lt.mpr (hbc e hmem).1)
          rw [hz, hgc.2.2.2.2 e]
          have h2 := hoo e h
          omega
        · have hz : childOccurs (cloneNode s n).2 e = 0 := by
            rw [hgc.2.2.2.2 e]
            exact childOccurs_zero_of_ge s hcl e (Nat.le_of_not_lt h)
          rw [hz]
          have hcnt : (childIds (cloneNode s n).1).count e ≤ 1 :=
            List.nodup_iff_count_le_one.mp hnc e
          omega
      · -- exclusivity
        intro d2 hd2 i hiu hcontra
        have hself : implData (decRC (setImpl (allocData (cloneNode s n).2
            (HRec.mk 1 (cloneNode s n).1)).2 u
            (some (allocData (cloneNode s n).2
              (HRec.mk 1 (cloneNode s n).1)).1)) d) u
            = some (cloneNode s n).2.datas.length := by
          rw [implData_decRC, implData_setImpl_self _ _ _ (by rw [hA2ilen]; exact hulen2),
            hF]
        rw [hself] at hd2
        have hd2F : d2 = (cloneNode s n).2.datas.length := (Option.some_inj.mp hd2).symm
        subst hd2F
        rw [implData_decRC, implData_setImpl_ne _ _ _ i hiu, implData_allocData] at hcontra
        have := closed_data_lt (cloneNode s n).2 hclc i _ hcontra
        exact absurd this (Nat.lt_irrefl _)
    · have heq : EnsureUnique s u = s := by
        simp only [EnsureUnique, himd]
        rw [if_neg hshared]
      rw [heq]
      refine ⟨fun _ _ _ => rfl, fun _ _ => rfl, le_refl _, le_refl _, ⟨hcl, hrc, hoo⟩,
        fun _ _ => rfl, ?_⟩
      intro d2 hd2 i hiu
      rw [himd] at hd2
      have hdd : d2 = d := (Option.some_inj.mp hd2).symm
      subst hdd
      exact excl_of_rc_one s u d2 hcl hrc himd (Nat.not_lt.mp hshared) i hiu

end Impl
end CppJson

namespace CppJson
namespace Impl

/-! ### Framing of the individual heap operations -/

theorem not_reach_of_agree (s s2 : Store) (w u : ImplId) (h : Agree s s2 w)
    (hnr : ¬ ReachI s w u) : ¬ ReachI s2 w u :=
  fun hc => hnr (agree_reach_rev s s2 w h u hc)

theorem grows_agree (s s2 : Store) (w : ImplId) (hcl : Closed s)
    (hwl : w < s.impls.length) (hg : Grows s s2) : Agree s s2 w := by
  intro i hi
  have hilt : i < s.impls.length := by
    rcases reach_bounded s w i hcl hi with heq | hlt
    · subst heq; exact hwl
    · exact hlt
  exact ⟨hg.2.2.1 i hilt, fun d hd => hg.2.2.2.1 d (closed_data_lt s hcl i d hd)⟩

theorem EnsureUnique_agree (s : Store) (u w : ImplId) (hInv : InvW s)
    (hnr : ¬ ReachI s w u) (hwl : w < s.impls.length) :
    Agree s (EnsureUnique s u) w := by
  obtain ⟨hfa, hfb, _⟩ := EnsureUnique_spec s u hInv
  intro i hi
  have hilt : i < s.impls.length := by
    rcases reach_bounded s w i hInv.1 hi with heq | hlt
    · subst heq; exact hwl
    · exact hlt
  have hiu : i ≠ u := fun hc => hnr (hc ▸ hi)
  exact ⟨hfa i hiu hilt, fun d hd => hfb d (closed_data_lt s hInv.1 i d hd)⟩

theorem setDataVal_agree_excl (s2 : Store) (w u : ImplId) (d : DataId) (n : HNode)
    (hex : ∀ i, i ≠ u → implData s2 i ≠ some d)
    (hnr2 : ¬ ReachI s2 w u) :
    Agree s2 (setDataVal s2 d n) w := by
  intro i hi
  refine ⟨implData_setDataVal _ _ _ i, fun d2 hd2 => ?_⟩
  have hiu : i ≠ u := fun hc => hnr2 (hc ▸ hi)
  have hne : d2 ≠ d := fun hc => hex i hiu (hc ▸ hd2)
  exact dataVal_setDataVal_ne _ _ _ d2 hne

theorem killAll_agree : ∀ (l : List ImplId) (s2 : Store) (w : ImplId),
    (∀ e ∈ l, ¬ ReachI s2 w e) → Agree s2 (killAll s2 l) w := by
  intro l
  induction l with
  | nil => intro s2 w _; exact agree_refl _ _
  | cons e t ih =>
    intro s2 w h
    have hstep : Agree s2 (setImpl s2 e none) w := by
      intro i hi
      refine ⟨?_, fun d hd => rfl⟩
      exact implData_setImpl_ne _ _ _ i (fun hc => h e (by simp) (hc ▸ hi))
    have htail := ih (setImpl s2 e none) w (fun e2 he2 hre =>
      h e2 (by simp [he2]) (agree_reach_rev _ _ _ hstep e2 hre))
    exact agree_trans _ _ _ _ hstep htail

theorem lookupEntry_mem : ∀ (kvs : List (Bytes × ImplId)) (k : Bytes) (e : ImplId),
    lookupEntry kvs k = some e → e ∈ kvs.map Prod.snd := by
  intro kvs
  induction kvs with
  | nil => intro k e h; simp [lookupEntry] at h
  | cons kv t ih =>
    intro k e h
    simp only [lookupEntry] at h
    by_cases hk : kv.1 = k
    · rw [if_pos hk] at h
      simp only [Option.some_inj] at h
      simp [h]
    · rw [if_neg hk] at h
      simp [ih k e h]

theorem mem_of_getLastQ : ∀ (l : List ImplId) (a : ImplId), l.getLast? = some a → a ∈ l := by
  intro l
  induction l with
  | nil => intro a h; simp at h
  | cons x t ih =>
    intro a h
    cases t with
    | nil =>
      simp only [List.getLast?_singleton, Option.some_inj] at h
      simp [h]
    | cons y t2 =>
      rw [List.getLast?_cons_cons] at h
      simp [ih a h]

end Impl
end CppJson

namespace CppJson
namespace Impl

theorem setScalar_agree (s : Store) (u w : ImplId) (n : HNode) (hInv : InvW s)
    (hnr : ¬ ReachI s w u) (hwl : w < s.impls.length) :
    Agree s (setScalar s u n) w := by
  have hEU := EnsureUnique_agree s u w hInv hnr hwl
  have hex := (EnsureUnique_spec s u hInv).2.2.2.2.2.2
  have hnr1 : ¬ ReachI (EnsureUnique s u) w u := not_reach_of_agree _ _ _ _ hEU hnr
  cases himd : implData (EnsureUnique s u) u with
  | none =>
    have heq : setScalar s u n = EnsureUnique s u := by
      simp only [setScalar]
      rw [himd]
    rw [heq]
    exact hEU
  | some d =>
    have heq : setScalar s u n = setDataVal (EnsureUnique s u) d n := by
      simp only [setScalar]
      rw [himd]
    rw [heq]
    exact agree_trans _ _ _ _ hEU
      (setDataVal_agree_excl _ w u d n (hex d himd) hnr1)

theorem pushBack_agree (s : Store) (u src w : ImplId) (hInv : InvW s)
    (hnr : ¬ ReachI s w u) (hwl : w < s.impls.length) :
    Agree s (pushBack s u src) w := by
  obtain ⟨_, _, _, hgP, hIP⟩ := copyJson_spec s src hInv
  have hA0 : Agree s (copyJson s src).2 w := grows_agree _ _ w hInv.1 hwl hgP
  have hnr0 : ¬ ReachI (copyJson s src).2 w u := not_reach_of_agree _ _ _ _ hA0 hnr
  have hwl0 : w < (copyJson s src).2.impls.length := Nat.lt_of_lt_of_le hwl hgP.1
  have hEU := EnsureUnique_agree (copyJson s src).2 u w hIP hnr0 hwl0
  have hex := (EnsureUnique_spec (copyJson s src).2 u hIP).2.2.2.2.2.2
  have hA1 : Agree s (EnsureUnique (copyJson s src).2 u) w :=
    agree_trans _ _ _ _ hA0 hEU
  have hnr1 : ¬ ReachI (EnsureUnique (copyJson s src).2 u) w u :=
    not_reach_of_agree _ _ _ _ hA1 hnr
  cases himd : implData (EnsureUnique (copyJson s src).2 u) u with
  | none =>
    have heq : pushBack s u src = EnsureUnique (copyJson s src).2 u := by
      simp only [pushBack]
      rw [himd]
    rw [heq]
    exact hA1
  | some d =>
    cases hdn : dataVal (EnsureUnique (copyJson s src).2 u) d with
    | none =>
      have heq : pushBack s u src = EnsureUnique (copyJson s src).2 u := by
        simp only [pushBack]
        rw [himd]
        dsimp only
        rw [hdn]
      rw [heq]
      exact hA1
    | some n =>
      cases n with
      | hArr es =>
        have heq : pushBack s u src = setDataVal (EnsureUnique (copyJson s src).2 u) d
            (.hArr (es ++ [(copyJson s src).1])) := by
          simp only [pushBack]
          rw [himd]
          dsimp only
          rw [hdn]
        rw [heq]
        exact agree_trans _ _ _ _ hA1
          (setDataVal_agree_excl _ w u d _ (hex d himd) hnr1)
      | hNull =>
        have heq : pushBack s u src = EnsureUnique (copyJson s src).2 u := by
          simp only [pushBack]
          rw [himd]
          dsimp only
          rw [hdn]
        rw [heq]
        exact hA1
      | hBool b =>
        have heq : pushBack s u src = EnsureUnique (copyJson s src).2 u := by
          simp only [pushBack]
          rw [himd]
          dsimp only
          rw [hdn]
        rw [heq]
        exact hA1
      | hNum m e =>
        have heq : pushBack s u src = EnsureUnique (copyJson s src).2 u := by
          simp only [pushBack]
          rw [himd]
          dsimp only
          rw [hdn]
        rw [heq]
        exact hA1
      | hStr t =>
        have heq : pushBack s u src = EnsureUnique (copyJson s src).2 u := by
          simp only [pushBack]
          rw [himd]
          dsimp only
          rw [hdn]
        rw [heq]
        exact hA1
      | hObj kvs =>
        have heq : pushBack s u src = EnsureUnique (copyJson s src).2 u := by
          simp only [pushBack]
          rw [himd]
          dsimp only
          rw [hdn]
        rw [heq]
        exact hA1

end Impl
end CppJson

namespace CppJson
namespace Impl

theorem popBack_agree (s : Store) (u w : ImplId) (hInv : InvW s)
    (hnr : ¬ ReachI s w u) (hwl : w < s.impls.length)
    (hcow : childOccurs s w = 0) :
    Agree s (popBack s u) w := by
  have hEU := EnsureUnique_agree s u w hInv hnr hwl
  obtain ⟨hfa, hfb, hgi, hgd, hI1, hcf, hex⟩ := EnsureUnique_spec s u hInv
  obtain ⟨hcl1, hrc1, hoo1⟩ := hI1
  have hnr1 : ¬ ReachI (EnsureUnique s u) w u := not_reach_of_agree _ _ _ _ hEU hnr
  have hco1 : childOccurs (EnsureUnique s u) w = 0 := by
    rw [hcf w hwl]
    exact hcow
  cases himd : implData (EnsureUnique s u) u with
  | none =>
    have heq : popBack s u = EnsureUnique s u := by
      simp only [popBack]
      rw [himd]
    rw [heq]
    exact hEU
  | some d =>
    cases hdn : dataVal (EnsureUnique s u) d with
    | none =>
      have heq : popBack s u = EnsureUnique s u := by
        simp only [popBack]
        rw [himd]
        dsimp only
        rw [hdn]
      rw [heq]
      exact hEU
    | some n =>
      cases n with
      | hArr es =>
        cases hlast : es.getLast? with
        | none =>
          have heq : popBack s u = EnsureUnique s u := by
            simp only [popBack]
            rw [himd]
            dsimp only
            rw [hdn]
            dsimp only
            rw [hlast]
          rw [heq]
          exact hEU
        | some last =>
          have heq : popBack s u = setImpl (setDataVal (EnsureUnique s u) d
              (.hArr es.dropLast)) last none := by
            simp only [popBack]
            rw [himd]
            dsimp only
            rw [hdn]
            dsimp only
            rw [hlast]
          rw [heq]
          have hA2 : Agree (EnsureUnique s u) (setDataVal (EnsureUnique s u) d
              (.hArr es.dropLast)) w :=
            setDataVal_agree_excl _ w u d _ (hex d himd) hnr1
          have hnl : ¬ ReachI (EnsureUnique s u) w last :=
            reach_not_child_excl (EnsureUnique s u) w u d (.hArr es) hcl1 hoo1 hco1
              himd (hex d himd) hnr1 hdn last (by
                simp only [childIds]
                exact mem_of_getLastQ es last hlast)
          have hA3 : Agree (setDataVal (EnsureUnique s u) d (.hArr es.dropLast))
              (setImpl (setDataVal (EnsureUnique s u) d (.hArr es.dropLast)) last none)
              w := by
            intro i hi
            refine ⟨?_, fun d2 hd2 => rfl⟩
            refine implData_setImpl_ne _ _ _ i (fun hc => ?_)
            exact hnl (agree_reach_rev _ _ _ hA2 i hi |> (hc ▸ ·))
          exact agree_trans _ _ _ _ (agree_trans _ _ _ _ hEU hA2) hA3
      | hNull =>
        have heq : popBack s u = EnsureUnique s u := by
          simp only [popBack]
          rw [himd]
          dsimp only
          rw [hdn]
        rw [heq]
        exact hEU
      | hBool b =>
        have heq : popBack s u = EnsureUnique s u := by
          simp only [popBack]
          rw [himd]
          dsimp only
          rw [hdn]
        rw [heq]
        exact hEU
      | hNum m e =>
        have heq : popBack s u = EnsureUnique s u := by
          simp only [popBack]
          rw [himd]
          dsimp only
          rw [hdn]
        rw [heq]
        exact hEU
      | hStr t =>
        have heq : popBack s u = EnsureUnique s u := by
          simp only [popBack]
          rw [himd]
          dsimp only
          rw [hdn]
        rw [heq]
        exact hEU
      | hObj kvs =>
        have heq : popBack s u = EnsureUnique s u := by
          simp only [popBack]
          rw [himd]
          dsimp only
          rw [hdn]
        rw [heq]
        exact hEU

theorem removeKey_agree (s : Store) (u w : ImplId) (k : Bytes) (hInv : InvW s)
    (hnr : ¬ ReachI s w u) (hwl : w < s.impls.length)
    (hcow : childOccurs s w = 0) :
    Agree s (removeKey s u k) w := by
  have hEU := EnsureUnique_agree s u w hInv hnr hwl
  obtain ⟨hfa, hfb, hgi, hgd, hI1, hcf, hex⟩ := EnsureUnique_spec s u hInv
  obtain ⟨hcl1, hrc1, hoo1⟩ := hI1
  have hnr1 : ¬ ReachI (EnsureUnique s u) w u := not_reach_of_agree _ _ _ _ hEU hnr
  have hco1 : childOccurs (EnsureUnique s u) w = 0 := by
    rw [hcf w hwl]
    exact hcow
  cases himd : implData (EnsureUnique s u) u with
  | none =>
    have heq : removeKey s u k = EnsureUnique s u := by
      simp only [removeKey]
      rw [himd]
    rw [heq]
    exact hEU
  | some d =>
    cases hdn : dataVal (EnsureUnique s u) d with
    | none =>
      have heq : removeKey s u k = EnsureUnique s u := by
        simp only [removeKey]
        rw [himd]
        dsimp only
        rw [hdn]
      rw [heq]
      exact hEU
    | some n =>
      cases n with
      | hObj kvs =>
        have heq : removeKey s u k = killAll (setDataVal (EnsureUnique s u) d
            (.hObj (kvs.filter (fun kv => !(kv.1 = k : Bool)))))
            ((kvs.filter (fun kv => (kv.1 = k : Bool))).map Prod.snd) := by
          simp only [removeKey]
          rw [himd]
          dsimp only
          rw [hdn]
        rw [heq]
        have hA2 : Agree (EnsureUnique s u) (setDataVal (EnsureUnique s u) d
            (.hObj (kvs.filter (fun kv => !(kv.1 = k : Bool))))) w :=
          setDataVal_agree_excl _ w u d _ (hex d himd) hnr1
        have hkill := killAll_agree
          ((kvs.filter (fun kv => (kv.1 = k : Bool))).map Prod.snd)
          (setDataVal (EnsureUnique s u) d
            (.hObj (kvs.filter (fun kv => !(kv.1 = k : Bool))))) w
          (by
            intro e he hre
            have hmem : e ∈ kvs.map Prod.snd := by
              rw [List.mem_map] at he ⊢
              obtain ⟨kv, hkv, hkve⟩ := he
              exact ⟨kv, List.mem_of_mem_filter hkv, hkve⟩
            have hne : ¬ ReachI (EnsureUnique s u) w e :=
              reach_not_child_excl (EnsureUnique s u) w u d (.hObj kvs) hcl1 hoo1 hco1
                himd (hex d himd) hnr1 hdn e (by simpa [childIds] using hmem)
            exact hne (agree_reach_rev _ _ _ hA2 e hre))
        exact agree_trans _ _ _ _ (agree_trans _ _ _ _ hEU hA2) hkill
      | hNull =>
        have heq : removeKey s u k = EnsureUnique s u := by
          simp only [removeKey]
          rw [himd]
          dsimp only
          rw [hdn]
        rw [heq]
        exact hEU
      | hBool b =>
        have heq : removeKey s u k = EnsureUnique s u := by
          simp only [removeKey]
          rw [himd]
          dsimp only
          rw [hdn]
        rw [heq]
        exact hEU
      | hNum m e =>
        have heq : removeKey s u k = EnsureUnique s u := by
          simp only [removeKey]
          rw [himd]
          dsimp only
          rw [hdn]
        rw [heq]
        exact hEU
      | hStr t =>
        have heq : removeKey s u k = EnsureUnique s u := by
          simp only [removeKey]
          rw [himd]
          dsimp only
          rw [hdn]
        rw [heq]
        exact hEU
      | hArr es =>
        have heq : removeKey s u k = EnsureUnique s u := by
          simp only [removeKey]
          rw [himd]
          dsimp only
          rw [hdn]
        rw [heq]
        exact hEU

theorem assignJson_agree (s : Store) (u src w : ImplId)
    (hnr : ¬ ReachI s w u) :
    Agree s (assignJson s u src) w := by
  by_cases hds : u = src
  · have heq : assignJson s u src = s := by
      simp only [assignJson]
      rw [if_pos hds]
    rw [heq]
    exact agree_refl _ _
  · have heq1 : assignJson s u src = shareData s u src := by
      simp only [assignJson]
      rw [if_neg hds]
    rw [heq1]
    cases himd : implData s src with
    | none =>
      have heq : shareData s u src = s := by
        simp only [shareData]
        rw [himd]
      rw [heq]
      exact agree_refl _ _
    | some dsrc =>
      cases hdo : implData s u with
      | none =>
        have heq : shareData s u src = bumpRC (setImpl s u (some dsrc)) dsrc := by
          simp only [shareData]
          rw [himd]
          dsimp only
          rw [hdo]
        rw [heq]
        intro i hi
        refine ⟨?_, fun d hd => ?_⟩
        · rw [implData_bumpRC,
            implData_setImpl_ne s u (some dsrc) i (fun hc => hnr (hc ▸ hi))]
        · rw [dataVal_bumpRC, dataVal_setImpl]
      | some dd =>
        have heq : shareData s u src = decRC (bumpRC (setImpl s u (some dsrc)) dsrc) dd := by
          simp only [shareData]
          rw [himd]
          dsimp only
          rw [hdo]
        rw [heq]
        intro i hi
        refine ⟨?_, fun d hd => ?_⟩
        · rw [implData_decRC, implData_bumpRC,
            implData_setImpl_ne s u (some dsrc) i (fun hc => hnr (hc ▸ hi))]
        · rw [dataVal_decRC, dataVal_bumpRC, dataVal_setImpl]

theorem applyMut_agree (s : Store) (u w : ImplId) (m : Mut) (hInv : InvW s)
    (hnr : ¬ ReachI s w u) (hwl : w < s.impls.length)
    (hcow : childOccurs s w = 0) :
    Agree s (applyMut s u m) w := by
  cases m with
  | mSet sm => exact setScalar_agree s u w (scalarNode sm) hInv hnr hwl
  | mPush src => exact pushBack_agree s u src w hInv hnr hwl
  | mPop => exact popBack_agree s u w hInv hnr hwl hcow
  | mRemove k => exact removeKey_agree s u w k hInv hnr hwl hcow
  | mAssign src => exact assignJson_agree s u src w hnr

end Impl
end CppJson

namespace CppJson
namespace Impl

theorem reach_fresh_free (s s2 : Store) (w j : ImplId) (hcl : Closed s)
    (hA : Agree s s2 w) (hwl : w < s.impls.length) (hj : s.impls.length ≤ j) :
    ¬ ReachI s2 w j := by
  intro hre
  have hre0 := agree_reach_rev s s2 w hA j hre
  rcases reach_bounded s w j hcl hre0 with heq | hlt
  · subst heq
    exact absurd hj (Nat.not_le.mpr hwl)
  · exact absurd hj (Nat.not_le.mpr hlt)

theorem resolveStep_spec (s : Store) (u w : ImplId) (st : PathStep)
    (hInv : InvW s) (hnr : ¬ ReachI s w u) (hwl : w < s.impls.length)
    (hcow : childOccurs s w = 0) :
    Agree s (resolveStep s u st).2 w ∧ InvW (resolveStep s u st).2 ∧
    w < (resolveStep s u st).2.impls.length ∧
    childOccurs (resolveStep s u st).2 w = 0 ∧
    (∀ j, (resolveStep s u st).1 = some j → ¬ ReachI (resolveStep s u st).2 w j) := by
  have hEU := EnsureUnique_agree s u w hInv hnr hwl
  obtain ⟨hfa, hfb, hgi, hgd, hI1, hcf, hex⟩ := EnsureUnique_spec s u hInv
  have hcl1 := hI1.1
  have hrc1 := hI1.2.1
  have hoo1 := hI1.2.2
  have hnr1 : ¬ ReachI (EnsureUnique s u) w u := not_reach_of_agree _ _ _ _ hEU hnr
  have hwl1 : w < (EnsureUnique s u).impls.length := Nat.lt_of_lt_of_le hwl hgi
  have hco1 : childOccurs (EnsureUnique s u) w = 0 := by
    rw [hcf w hwl]
    exact hcow
  cases st with
  | idx nn =>
    cases himd : implData (EnsureUnique s u) u with
    | none =>
      have heq : resolveStep s u (.idx nn) = (none, EnsureUnique s u) := by
        simp only [resolveStep]
        rw [himd]
      rw [heq]
      exact ⟨hEU, ⟨hcl1, hrc1, hoo1⟩, hwl1, hco1, fun j hj => by simp at hj⟩
    | some d =>
      cases hdn : dataVal (EnsureUnique s u) d with
      | none =>
        have heq : resolveStep s u (.idx nn) = (none, EnsureUnique s u) := by
          simp only [resolveStep]
          rw [himd]
          dsimp only
          rw [hdn]
        rw [heq]
        exact ⟨hEU, ⟨hcl1, hrc1, hoo1⟩, hwl1, hco1, fun j hj => by simp at hj⟩
      | some n =>
        cases n with
        | hArr es =>
          have heq : resolveStep s u (.idx nn) = (es[nn]?, EnsureUnique s u) := by
            simp only [resolveStep]
            rw [himd]
            dsimp only
            rw [hdn]
          rw [heq]
          refine ⟨hEU, ⟨hcl1, hrc1, hoo1⟩, hwl1, hco1, fun j hj => ?_⟩
          have hjm : j ∈ es := by
            obtain ⟨hlt2, hget⟩ := List.getElem?_eq_some_iff.mp hj
            exact hget ▸ List.getElem_mem hlt2
          exact reach_not_child_excl (EnsureUnique s u) w u d (.hArr es) hcl1 hoo1
            hco1 himd (hex d himd) hnr1 hdn j (by simpa [childIds] using hjm)
        | hNull =>
          have heq : resolveStep s u (.idx nn) = (none, EnsureUnique s u) := by
            simp only [resolveStep]
            rw [himd]
            dsimp only
            rw [hdn]
          rw [heq]
          exact ⟨hEU, ⟨hcl1, hrc1, hoo1⟩, hwl1, hco1, fun j hj => by simp at hj⟩
        | hBool b =>
          have heq : resolveStep s u (.idx nn) = (none, EnsureUnique s u) := by
            simp only [resolveStep]
            rw [himd]
            dsimp only
            rw [hdn]
          rw [heq]
          exact ⟨hEU, ⟨hcl1, hrc1, hoo1⟩, hwl1, hco1, fun j hj => by simp at hj⟩
        | hNum m e =>
          have heq : resolveStep s u (.idx nn) = (none, EnsureUnique s u) := by
            simp only [resolveStep]
            rw [himd]
            dsimp only
            rw [hdn]
          rw [heq]
          exact ⟨hEU, ⟨hcl1, hrc1, hoo1⟩, hwl1, hco1, fun j hj => by simp at hj⟩
        | hStr t =>
          have heq : resolveStep s u (.idx nn) = (none, EnsureUnique s u) := by
            simp only [resolveStep]
            rw [himd]
            dsimp only
            rw [hdn]
          rw [heq]
          exact ⟨hEU, ⟨hcl1, hrc1, hoo1⟩, hwl1, hco1, fun j hj => by simp at hj⟩
        | hObj kvs =>
          have heq : resolveStep s u (.idx nn) = (none, EnsureUnique s u) := by
            simp only [resolveStep]
            rw [himd]
            dsimp only
            rw [hdn]
          rw [heq]
          exact ⟨hEU, ⟨hcl1, hrc1, hoo1⟩, hwl1, hco1, fun j hj => by simp at hj⟩
  | key k =>
    cases himd : implData (EnsureUnique s u) u with
    | none =>
      have heq : resolveStep s u (.key k) = (none, EnsureUnique s u) := by
        simp only [resolveStep]
        rw [himd]
      rw [heq]
      exact ⟨hEU, ⟨hcl1, hrc1, hoo1⟩, hwl1, hco1, fun j hj => by simp at hj⟩
    | some d =>
      cases hdn : dataVal (EnsureUnique s u) d with
      | none =>
        have heq : resolveStep s u (.key k) = (none, EnsureUnique s u) := by
          simp only [resolveStep]
          rw [himd]
          dsimp only
          rw [hdn]
        rw [heq]
        exact ⟨hEU, ⟨hcl1, hrc1, hoo1⟩, hwl1, hco1, fun j hj => by simp at hj⟩
      | some n =>
        cases n with
        | hObj kvs =>
          cases hlook : lookupEntry kvs k with
          | some e0 =>
            have heq : resolveStep s u (.key k) = (some e0, EnsureUnique s u) := by
              simp only [resolveStep]
              rw [himd]
              dsimp only
              rw [hdn]
              dsimp only
              rw [hlook]
            rw [heq]
            refine ⟨hEU, ⟨hcl1, hrc1, hoo1⟩, hwl1, hco1, fun j hj => ?_⟩
            simp only [Option.some_inj] at hj
            have hne := reach_not_child_excl (EnsureUnique s u) w u d (.hObj kvs) hcl1
              hoo1 hco1 himd (hex d himd) hnr1 hdn e0
              (by simpa [childIds] using lookupEntry_mem kvs k e0 hlook)
            exact hj ▸ hne
          | none =>
            have heq : resolveStep s u (.key k)
                = (some (newImpl (EnsureUnique s u)).1,
                   setDataVal (newImpl (EnsureUnique s u)).2 d
                     (.hObj (kvs ++ [(k, (newImpl (EnsureUnique s u)).1)]))) := by
              simp only [resolveStep]
              rw [himd]
              dsimp only
              rw [hdn]
              dsimp only
              rw [hlook]
            rw [heq]
            obtain ⟨hn1, hil, hdl, hgN, hnew, hrcN1, hrcNo, hrfN1, hrfNo, hIN⟩ :=
              newImpl_spec (EnsureUnique s u) hI1
            have hclN := hIN.1
            have hrcN := hIN.2.1
            have hooN := hIN.2.2
            have hdlt1 : d < (EnsureUnique s u).datas.length :=
              closed_data_lt _ hcl1 u d himd
            have hulen1 : u < (EnsureUnique s u).impls.length :=
              lt_of_implData_some _ u d himd
            have himdN : implData (newImpl (EnsureUnique s u)).2 u = some d := by
              rw [hgN.2.2.1 u hulen1]
              exact himd
            have hdnN : dataVal (newImpl (EnsureUnique s u)).2 d
                = some (.hObj kvs) := by
              rw [hgN.2.2.2.1 d hdlt1]
              exact hdn
            obtain ⟨r, hr, hrv⟩ := (dataVal_eq_some_rec _ d _).mp hdnN
            have hexN : ∀ i, i ≠ u →
                implData (newImpl (EnsureUnique s u)).2 i ≠ some d := by
              intro i hiu hcontra
              by_cases hilt : i < (EnsureUnique s u).impls.length
              · rw [hgN.2.2.1 i hilt] at hcontra
                exact hex d himd i hiu hcontra
              · by_cases hieq : i = (EnsureUnique s u).impls.length
                · rw [hieq, hnew] at hcontra
                  have hde := Option.some_inj.mp hcontra
                  rw [hde] at hdlt1
                  exact absurd hdlt1 (Nat.lt_irrefl _)
                · have hge2 : (newImpl (EnsureUnique s u)).2.impls.length ≤ i := by
                    rw [hil]
                    exact Nat.succ_le_of_lt
                      (Nat.lt_of_le_of_ne (Nat.le_of_not_lt hilt) (Ne.symm hieq))
                  rw [implData_none_of_ge _ i hge2] at hcontra
                  exact absurd hcontra (by simp)
            have hAN : Agree s (newImpl (EnsureUnique s u)).2 w :=
              agree_trans _ _ _ _ hEU (grows_agree _ _ w hcl1 hwl1 hgN)
            have hnrN : ¬ ReachI (newImpl (EnsureUnique s u)).2 w u :=
              not_reach_of_agree _ _ _ _ hAN hnr
            have hA2 : Agree (newImpl (EnsureUnique s u)).2
                (setDataVal (newImpl (EnsureUnique s u)).2 d
                  (.hObj (kvs ++ [(k, (newImpl (EnsureUnique s u)).1)]))) w :=
              setDataVal_agree_excl _ w u d _ hexN hnrN
            have hAfull : Agree s (setDataVal (newImpl (EnsureUnique s u)).2 d
                (.hObj (kvs ++ [(k, (newImpl (EnsureUnique s u)).1)]))) w :=
              agree_trans _ _ _ _ hAN hA2
            have himplS2 : (setDataVal (newImpl (EnsureUnique s u)).2 d
                (.hObj (kvs ++ [(k, (newImpl (EnsureUnique s u)).1)]))).impls
                = (newImpl (EnsureUnique s u)).2.impls := impls_setDataVal _ _ _
            have hlenS2d : (setDataVal (newImpl (EnsureUnique s u)).2 d
                (.hObj (kvs ++ [(k, (newImpl (EnsureUnique s u)).1)]))).datas.length
                = (newImpl (EnsureUnique s u)).2.datas.length := datasLen_setDataVal _ _ _
            have hS2datas : (setDataVal (newImpl (EnsureUnique s u)).2 d
                (.hObj (kvs ++ [(k, (newImpl (EnsureUnique s u)).1)]))).datas
                = (newImpl (EnsureUnique s u)).2.datas.set d
                    (HRec.mk r.rc (.hObj (kvs ++ [(k, (newImpl (EnsureUnique s u)).1)]))) := by
              unfold setDataVal
              rw [hr]
            have hwlS2 : w < (setDataVal (newImpl (EnsureUnique s u)).2 d
                (.hObj (kvs ++ [(k, (newImpl (EnsureUnique s u)).1)]))).impls.length := by
              rw [himplS2, hil]
              exact Nat.lt_succ_of_lt hwl1
            have hcwz : (childIds (HNode.hObj kvs)).count w = 0 := by
              rw [List.count_eq_zero]
              intro hcmem
              have hpos := childOccurs_pos_of_mem (newImpl (EnsureUnique s u)).2 d
                (.hObj kvs) w hdnN hcmem
              rw [hgN.2.2.2.2 w, hcf w hwl, hcow] at hpos
              exact absurd hpos (by simp)
            have hexch := childOccurs_setDataVal_exchange (newImpl (EnsureUnique s u)).2
              d (.hObj (kvs ++ [(k, (newImpl (EnsureUnique s u)).1)])) r hr
            have hcS2w : childOccurs (setDataVal (newImpl (EnsureUnique s u)).2 d
                (.hObj (kvs ++ [(k, (newImpl (EnsureUnique s u)).1)]))) w = 0 := by
              have hw := hexch w
              have hwNi : w ≠ (newImpl (EnsureUnique s u)).1 := by
                rw [hn1]
                exact Nat.ne_of_lt hwl1
              have hcN0 : childOccurs (newImpl (EnsureUnique s u)).2 w = 0 := by
                rw [hgN.2.2.2.2 w, hcf w hwl]
                exact hcow
              rw [hrv] at hw
              simp only [childIds, List.map_append, List.map_cons, List.map_nil,
                List.count_append] at hw
              have hone : ([(newImpl (EnsureUnique s u)).1] : List ImplId).count w = 0 := by
                rw [List.count_eq_zero]
                simp [hwNi]
              simp only [childIds] at hcwz
              omega
            refine ⟨hAfull, ⟨?_, ?_, ?_⟩, hwlS2, hcS2w, fun j hj => ?_⟩
            · -- Closed
              constructor
              · intro o ho d2 hd2
                subst hd2
                rw [himplS2] at ho
                have h2 := hclN.1 (some d2) ho d2 rfl
                rw [hlenS2d]
                exact h2
              · intro r2 hr2 e he
                rw [hS2datas] at hr2
                rw [himplS2]
                rcases List.mem_or_eq_of_mem_set hr2 with hr3 | hr3
                · exact hclN.2 r2 hr3 e he
                · subst hr3
                  simp only [childIds, List.map_append, List.map_cons, List.map_nil,
                    List.mem_append, List.mem_singleton] at he
                  rcases he with he | he
                  · exact closed_child_lt _ hclN d _ hdnN e (by simpa [childIds] using he)
                  · rw [he, hn1, hil]
                    exact Nat.lt_succ_self _
            · -- RCok
              intro d2 hd2
              rw [refCount_setDataVal, rcOf_setDataVal]
              rw [hlenS2d] at hd2
              exact hrcN d2 hd2
            · -- OwnOnce
              intro e hel
              dsimp only at hel ⊢
              have hw := hexch e
              rw [hrv] at hw
              have hmap : childIds (HNode.hObj (kvs ++ [(k, (newImpl (EnsureUnique s u)).1)]))
                  = childIds (HNode.hObj kvs) ++ [(newImpl (EnsureUnique s u)).1] := by
                simp [childIds]
              rw [hmap, List.count_append] at hw
              rw [himplS2] at hel
              by_cases he1 : e = (newImpl (EnsureUnique s u)).1
              · have hcN0 : childOccurs (newImpl (EnsureUnique s u)).2 e = 0 := by
                  rw [hgN.2.2.2.2 e, he1, hn1]
                  exact childOccurs_zero_of_ge _ hcl1 _ (le_refl _)
                have hcz : (childIds (HNode.hObj kvs)).count e = 0 := by
                  rw [List.count_eq_zero]
                  intro hcmem
                  have := closed_child_lt _ hcl1 d (.hObj kvs) hdn e hcmem
                  rw [he1, hn1] at this
                  exact absurd this (Nat.lt_irrefl _)
                have hB : ([(newImpl (EnsureUnique s u)).1] : List ImplId).count e = 1 := by
                  rw [he1]
                  simp
                omega
              · have hB : ([(newImpl (EnsureUnique s u)).1] : List ImplId).count e = 0 := by
                  rw [List.count_eq_zero]
                  simp [he1]
                have hooN2 := hooN e hel
                omega
            · -- result fresh not reachable
              simp only [Option.some_inj] at hj
              have hfree := reach_fresh_free s _ w (newImpl (EnsureUnique s u)).1
                hInv.1 hAfull hwl (by rw [hn1]; exact hgi)
              exact hj ▸ hfree
        | hNull =>
          have heq : resolveStep s u (.key k) = (none, EnsureUnique s u) := by
            simp only [resolveStep]
            rw [himd]
            dsimp only
            rw [hdn]
          rw [heq]
          exact ⟨hEU, ⟨hcl1, hrc1, hoo1⟩, hwl1, hco1, fun j hj => by simp at hj⟩
        | hBool b =>
          have heq : resolveStep s u (.key k) = (none, EnsureUnique s u) := by
            simp only [resolveStep]
            rw [himd]
            dsimp only
            rw [hdn]
          rw [heq]
          exact ⟨hEU, ⟨hcl1, hrc1, hoo1⟩, hwl1, hco1, fun j hj => by simp at hj⟩
        | hNum m e =>
          have heq : resolveStep s u (.key k) = (none, EnsureUnique s u) := by
            simp only [resolveStep]
            rw [himd]
            dsimp only
            rw [hdn]
          rw [heq]
          exact ⟨hEU, ⟨hcl1, hrc1, hoo1⟩, hwl1, hco1, fun j hj => by simp at hj⟩
        | hStr t =>
          have heq : resolveStep s u (.key k) = (none, EnsureUnique s u) := by
            simp only [resolveStep]
            rw [himd]
            dsimp only
            rw [hdn]
          rw [heq]
          exact ⟨hEU, ⟨hcl1, hrc1, hoo1⟩, hwl1, hco1, fun j hj => by simp at hj⟩
        | hArr es =>
          have heq : resolveStep s u (.key k) = (none, EnsureUnique s u) := by
            simp only [resolveStep]
            rw [himd]
            dsimp only
            rw [hdn]
          rw [heq]
          exact ⟨hEU, ⟨hcl1, hrc1, hoo1⟩, hwl1, hco1, fun j hj => by simp at hj⟩

theorem mutate_agree (path : List PathStep) (s : Store) (u : ImplId) (m : Mut)
    (w : ImplId) (hInv : InvW s) (hnr : ¬ ReachI s w u) (hwl : w < s.impls.length)
    (hcow : childOccurs s w = 0) : Agree s (mutate s u path m) w := by
  induction path generalizing s u with
  | nil => exact applyMut_agree s u w m hInv hnr hwl hcow
  | cons st rest ih =>
    have hr := resolveStep_spec s u w st hInv hnr hwl hcow
    simp only [mutate]
    cases hres : (resolveStep s u st).1 with
    | none =>
      dsimp only
      exact hr.1
    | some j =>
      dsimp only
      have hA2 := ih (resolveStep s u st).2 j hr.2.1 (hr.2.2.2.2 j hres)
        hr.2.2.1 hr.2.2.2.1
      exact agree_trans _ _ _ _ hr.1 hA2

theorem implData_lt_of_isSome (s : Store) (v : ImplId)
    (h : (implData s v).isSome) : v < s.impls.length := by
  by_contra hc
  rw [implData_none_of_ge s v (Nat.not_lt.mp hc)] at h
  simp at h

theorem readback_congr_box (s : Store) (i j : ImplId)
    (h : implData s i = implData s j) (fuel : Nat) :
    readback s fuel i = readback s fuel j := by
  cases fuel with
  | zero => rfl
  | succ fuel =>
    simp only [readback]
    rw [h]

theorem copyJson_implData (s : Store) (v : ImplId) (hInv : InvW s)
    (hvl : v < s.impls.length) (hvs : (implData s v).isSome) :
    implData (copyJson s v).2 (copyJson s v).1 = implData s v := by
  obtain ⟨hn1, hil, hdl, hgrow, hnew, hrc1, hrco, hrf1, hrfo, hInv2⟩ := newImpl_spec s hInv
  have himdv : implData (newImpl s).2 v = implData s v := hgrow.2.2.1 v hvl
  have hne : (newImpl s).1 ≠ v := by
    rw [hn1]
    exact Nat.ne_of_gt hvl
  obtain ⟨dv, hdv⟩ := Option.isSome_iff_exists.mp hvs
  have hcj : copyJson s v = ((newImpl s).1, assignJson (newImpl s).2 (newImpl s).1 v) := rfl
  rw [hcj]
  simp only [assignJson, if_neg hne]
  have hdvn : implData (newImpl s).2 v = some dv := by rw [himdv, hdv]
  have hdold : implData (newImpl s).2 (newImpl s).1 = some s.datas.length := by
    rw [hn1]
    exact hnew
  have hshare : shareData (newImpl s).2 (newImpl s).1 v
      = decRC (bumpRC (setImpl (newImpl s).2 (newImpl s).1 (some dv)) dv)
          s.datas.length := by
    simp only [shareData]
    rw [hdvn]
    dsimp only
    rw [hdold]
  rw [hshare, implData_decRC, implData_bumpRC,
    implData_setImpl_self _ _ _ (by rw [hn1, hil]; exact Nat.lt_succ_self _)]
  exact hdv.symm

/-- C2: for every well-formed heap and user-held root value `v`, the copy
`c` produced by copy construction / copy assignment reads back identically
to `v`, every mutating operation applied to `c` (Set, PushBack, PopBack,
key assignment / insertion, Remove, whole-value assignment, at any path
into the tree) leaves every observation of `v` unchanged, and every
mutation of `v` likewise leaves every observation of `c` unchanged. -/
theorem C2_copy_independence (s : Store) (v : ImplId) (hwf : WF s)
    (hroot : Root s v) :
    (∀ fuel, readback (copyJson s v).2 fuel (copyJson s v).1
        = readback (copyJson s v).2 fuel v) ∧
    (∀ (path : List PathStep) (m : Mut) (fuel : Nat),
        readback (mutate (copyJson s v).2 (copyJson s v).1 path m) fuel v
          = readback (copyJson s v).2 fuel v) ∧
    (∀ (path : List PathStep) (m : Mut) (fuel : Nat),
        readback (mutate (copyJson s v).2 v path m) fuel (copyJson s v).1
          = readback (copyJson s v).2 fuel (copyJson s v).1) := by
  have hInv : InvW s := ⟨hwf.1, hwf.2.2.1, hwf.2.2.2⟩
  have hvl : v < s.impls.length := implData_lt_of_isSome s v hroot.1
  obtain ⟨hc1, hlen, hdlen, hgrow, hInv1⟩ := copyJson_spec s v hInv
  have hA01 : Agree s (copyJson s v).2 v := grows_agree s _ v hwf.1 hvl hgrow
  have hnrc : ¬ ReachI (copyJson s v).2 v (copyJson s v).1 :=
    reach_fresh_free s _ v _ hwf.1 hA01 hvl (le_of_eq hc1.symm)
  have hcov1 : childOccurs (copyJson s v).2 v = 0 := by
    rw [hgrow.2.2.2.2 v]
    exact hroot.2
  have hcoc : childOccurs (copyJson s v).2 (copyJson s v).1 = 0 := by
    rw [hgrow.2.2.2.2]
    exact childOccurs_zero_of_ge s hwf.1 _ (le_of_eq hc1.symm)
  have hnrv : ¬ ReachI (copyJson s v).2 (copyJson s v).1 v := by
    intro hre
    have hvc : v ≠ (copyJson s v).1 := by
      rw [hc1]
      exact Nat.ne_of_lt hvl
    rcases reach_cases hre with heq | ⟨b, d, n, hb, hd, hn, he⟩
    · exact hvc heq
    · have hpos := childOccurs_pos_of_mem (copyJson s v).2 d n v hn he
      rw [hcov1] at hpos
      exact absurd hpos (by simp)
  have hvl1 : v < (copyJson s v).2.impls.length := by
    rw [hlen]
    exact Nat.lt_succ_of_lt hvl
  have hcl1 : (copyJson s v).1 < (copyJson s v).2.impls.length := by
    rw [hlen, hc1]
    exact Nat.lt_succ_self _
  have himv1 : implData (copyJson s v).2 v = implData s v := (hA01 v ReachI.refl).1
  have himeq : implData (copyJson s v).2 (copyJson s v).1
      = implData (copyJson s v).2 v := by
    rw [himv1]
    exact copyJson_implData s v hInv hvl hroot.1
  refine ⟨?_, ?_, ?_⟩
  · intro fuel
    exact readback_congr_box _ _ _ himeq fuel
  · intro path m fuel
    exact readback_agree _ _ v
      (mutate_agree path _ (copyJson s v).1 m v hInv1 hnrc hvl1 hcov1)
      fuel v ReachI.refl
  · intro path m fuel
    exact readback_agree _ _ (copyJson s v).1
      (mutate_agree path _ v m (copyJson s v).1 hInv1 hnrv hcl1 hcoc)
      fuel _ ReachI.refl

theorem C2_copy_independence_witness :
    WF (Store.mk [some 0] [HRec.mk 1 HNode.hNull]) ∧
    Root (Store.mk [some 0] [HRec.mk 1 HNode.hNull]) 0 ∧
    readback (mutate (copyJson (Store.mk [some 0] [HRec.mk 1 HNode.hNull]) 0).2
        (copyJson (Store.mk [some 0] [HRec.mk 1 HNode.hNull]) 0).1 [] Mut.mPop) 3 0
      = readback (copyJson (Store.mk [some 0] [HRec.mk 1 HNode.hNull]) 0).2 3 0 := by
  have hwf : WF (Store.mk [some 0] [HRec.mk 1 HNode.hNull]) := by
    refine ⟨⟨?_, ?_⟩, ?_, ?_, ?_⟩
    · intro o ho d hd
      simp only [List.mem_singleton] at ho
      subst ho
      injection hd with hd2
      subst hd2
      decide
    · intro r hr e he
      simp only [List.mem_singleton] at hr
      subst hr
      simp [childIds] at he
    · intro r hr e he
      simp only [List.mem_singleton] at hr
      subst hr
      simp [childIds] at he
    · intro d hd
      have hd0 : d = 0 := Nat.lt_one_iff.mp hd
      subst hd0
      decide
    · intro e he
      have he0 : e = 0 := Nat.lt_one_iff.mp he
      subst he0
      decide
  have hroot : Root (Store.mk [some 0] [HRec.mk 1 HNode.hNull]) 0 :=
    ⟨by decide, by decide⟩
  exact ⟨hwf, hroot, (C2_copy_independence _ 0 hwf hroot).2.1 [] Mut.mPop 3⟩

end Impl
end CppJson
